import Mathlib

/-!
Verification development for the missingness-report library
(`hail_missing/missingness.py` and its report builder).

The embedding models:

* Hail row values as an inductive `Val` (a value may be missing, a scalar
  atom, a struct of named fields, or an array of values);
* Hail schemas as an inductive `Schema` (scalar leaves, records,
  arrays of records), the shape on which `count_missing_and_keys`
  dispatches via `isinstance(..., StructExpression / ArrayStructExpression)`;
* Hail row expressions as functions from the row value to a result that is
  either a value or a runtime error (`array index out of bounds` is the one
  runtime error the traversal can raise, from indexing an empty array);
* the aggregation pass (`ht.aggregate`) as a fold over the list of rows,
  with any per-row evaluation error failing the whole aggregate;
* the report builder `MissingnessReport._load_or_compute_df` including its
  cache short-circuit, its error classification (`try/except`) and the
  CSV cache serialization performed through `df.to_csv` / `pd.read_csv`.
-/

namespace HailMissing

/-- Runtime value of a Hail expression at one row.  `missing` is a missing
value (NA); `atom` is any present scalar-like leaf value (numbers, strings,
calls, loci, plain arrays of scalars, sets, dicts — whose contents the
traversal never inspects); `struct` is a present struct; `array` is a
present array of structs. -/
inductive Val where
  | missing : Val
  | atom (s : String) : Val
  | struct (fields : List (String × Val)) : Val
  | array (elems : List Val) : Val

/-- Static Hail type information, as used by the walker's `isinstance`
dispatch: a scalar-like leaf, a `StructExpression` shape, or an
`ArrayStructExpression` shape (array of structs with the given element
fields). -/
inductive Schema where
  | scalar : Schema
  | strct (fields : List (String × Schema)) : Schema
  | arrStruct (fields : List (String × Schema)) : Schema

/-- The one runtime error the traversal can raise: indexing `expr[0]` on an
empty (non-missing) array, surfacing as the Hail `array index out of bounds`
failure. -/
inductive HErr where
  | indexOutOfBounds : HErr
  deriving DecidableEq

/-- Result of evaluating a Hail expression at one row. -/
abbrev HRes (α : Type) := Except HErr α

/-- A Hail value expression: row value to result. -/
abbrev HExpr := Val → HRes Val

/-- A Hail boolean expression: row value to boolean result. -/
abbrev HPred := Val → HRes Bool

/-- Evaluation of `hl.is_missing` on a value. -/
def isMissingV : Val → Bool
  | .missing => true
  | _ => false

/-- Field access `v[f]` on an evaluated value.  Accessing a field of a
missing struct yields missing (missingness propagates through field
access in Hail). -/
def getFieldV (v : Val) (f : String) : Val :=
  match v with
  | .struct fs => (fs.lookup f).getD .missing
  | _ => .missing

/-- Index `v[0]` on an evaluated value: indexing a missing array is missing,
indexing an empty array is the out-of-bounds runtime error. -/
def index0V : Val → HRes Val
  | .array [] => .error .indexOutOfBounds
  | .array (v :: _) => .ok v
  | _ => .ok .missing

/-- Expression-level field access `expr[f]`. -/
def fieldE (base : HExpr) (f : String) : HExpr :=
  fun r => (base r).map (fun v => getFieldV v f)

/-- Expression-level `hl.is_missing(expr)`. -/
def missingE (e : HExpr) : HPred :=
  fun r => (e r).map isMissingV

/-- Expression-level `expr[0]`. -/
def index0E (e : HExpr) : HExpr :=
  fun r => (e r) >>= index0V

/-- Per-row contribution of
`hl.agg.filter(~parent_missing, hl.agg.count_where(current_field_missing))`:
rows where the filter predicate fails are excluded (the inner aggregand is
not evaluated for them), otherwise the row contributes 1 when the current
field is missing. -/
def cntWhere (p m : HPred) : Val → HRes Nat :=
  fun r => do
    let b ← p r
    if b then pure 0
    else do
      let c ← m r
      pure (if c then 1 else 0)

/-- Per-row collection flag of
`hl.agg.filter(~parent_missing & pred, hl.agg.collect(keys))`. -/
def keyWhere (p m : HPred) : HPred :=
  fun r => do
    let b ← p r
    if b then pure false
    else m r

/-- Number of elements of an array value whose field `g` is missing,
as computed by the walker's
`expr.fold(lambda accum, struct: accum + if_else(is_missing(struct[g]), 1, 0), 0)`.
A fold over a missing array is missing and `hl.agg.sum` skips missing
values, hence 0 for a non-array value. -/
def foldMissingCount (g : String) : Val → Nat
  | .array es => (es.filter (fun e => isMissingV (getFieldV e g))).length
  | _ => 0

/-- Per-row contribution of
`hl.agg.filter(~parent_missing, hl.agg.sum(expr.fold(...)))` for the
array-of-structs subfield `g`. -/
def cntArr (p : HPred) (arrE : HExpr) (g : String) : Val → HRes Nat :=
  fun r => do
    let b ← p r
    if b then pure 0
    else do
      let v ← arrE r
      pure (foldMissingCount g v)

/-- The walker's
`array_field_missing = current_field_missing | hl.is_missing(array_struct_expr)`
where `array_struct_expr = expr[0][g]` is the field `g` of the array's
first element. -/
def arrFieldMissing (m : HPred) (gE : HExpr) : HPred :=
  fun r => do
    let c ← m r
    let gm ← missingE gE r
    pure (c || gm)

/-- Dot-joined field paths, as produced by the f-string
`f"{field_name}.{nested_field_name}"`. -/
def pathJoin (f q : String) : String := f ++ "." ++ q

/-- Result of the schema walker: the ordered association lists
`results` (field path to per-row count contribution) and `missing_keys`
(field path to per-row key-collection flag), in Python dict insertion
order. -/
abbrev Specs := List (String × (Val → HRes Nat)) × List (String × HPred)

/-- Re-key a recursive walker result under the outer field name, as done by
the merge loops `results[f"{field_name}.{nested_field_name}"] = ...`. -/
def joinSpecs (f : String) (n : Specs) : Specs :=
  (n.1.map (fun x => (pathJoin f x.1, x.2)), n.2.map (fun x => (pathJoin f x.1, x.2)))

mutual

/-- The schema walker `count_missing_and_keys(schema, parent_missing, keys)`
restricted to its field loop: `base` is the struct expression being
traversed, `p` the `parent_missing` predicate.  For every field it registers
the guarded count and key specifications and then dispatches on the field's
static type (struct recursion, array-of-structs handling). -/
def walkFields (fields : List (String × Schema)) (base : HExpr) (p : HPred) : Specs :=
  match fields with
  | [] => ([], [])
  | (f, s) :: rest =>
    let e := fieldE base f
    let m := missingE e
    let nested := walkSub s f e p m
    let r := walkFields rest base p
    ((f, cntWhere p m) :: (nested.1 ++ r.1), (f, keyWhere p m) :: (nested.2 ++ r.2))
termination_by structural fields

/-- Dispatch on one field's static type: a struct field recurses with
`parent_missing = current_field_missing` (the code passes only
`current_field_missing`, not the disjunction with the outer predicate);
an array-of-structs field enters the array loop. -/
def walkSub (s : Schema) (f : String) (e : HExpr) (p m : HPred) : Specs :=
  match s with
  | .scalar => ([], [])
  | .strct fs => joinSpecs f (walkFields fs e m)
  | .arrStruct fs => joinSpecs f (walkArr fs e p m)
termination_by structural s

/-- The walker's loop `for array_struct_field_name, array_struct_expr in
expr[0].items()`: `arrE` is the array expression, `p` the outer
`parent_missing`, `m` the array's own `current_field_missing`.  For each
element field `g` it first recurses when `g` is itself struct-typed or
array-of-structs-typed (through the array's first element), then registers
the fold-based element count and the first-element-based key flag. -/
def walkArr (efields : List (String × Schema)) (arrE : HExpr) (p m : HPred) : Specs :=
  match efields with
  | [] => ([], [])
  | (g, sg) :: rest =>
    let gE := fieldE (index0E arrE) g
    let nested := walkArrSub sg g gE m
    let r := walkArr rest arrE p m
    (nested.1 ++ (g, cntArr p arrE g) :: r.1,
     nested.2 ++ (g, keyWhere p (arrFieldMissing m gE)) :: r.2)
termination_by structural efields

/-- Dispatch inside the array loop: a struct-typed element field recurses on
`expr[0][g]`, an array-of-structs-typed one on `expr[0][g][0]`; both pass
the array's `current_field_missing` as the recursive parent predicate. -/
def walkArrSub (sg : Schema) (g : String) (gE : HExpr) (m : HPred) : Specs :=
  match sg with
  | .scalar => ([], [])
  | .strct fs => joinSpecs g (walkFields fs gE m)
  | .arrStruct fs => joinSpecs g (walkFields fs (index0E gE) m)
termination_by structural sg

end

/-- Boolean disjunction of two row predicates, for the specification-side
ancestor predicate `ancestor_missing_predicate OR is_missing(v)`. -/
def orP (p q : HPred) : HPred :=
  fun r => do
    let b ← p r
    let c ← q r
    pure (b || c)

mutual

/-- Specification-side walker, following the spec's words for step (d):
identical to `walkFields` except that a Record-kind recursion threads
`ancestor_missing_predicate OR is_missing(v)` instead of only
`is_missing(v)`. -/
def walkFieldsSpec (fields : List (String × Schema)) (base : HExpr) (p : HPred) : Specs :=
  match fields with
  | [] => ([], [])
  | (f, s) :: rest =>
    let e := fieldE base f
    let m := missingE e
    let nested := walkSubSpec s f e p m
    let r := walkFieldsSpec rest base p
    ((f, cntWhere p m) :: (nested.1 ++ r.1), (f, keyWhere p m) :: (nested.2 ++ r.2))
termination_by structural fields

/-- Specification-side dispatch: the Record branch recurses with the
accumulated predicate `orP p m`. -/
def walkSubSpec (s : Schema) (f : String) (e : HExpr) (p m : HPred) : Specs :=
  match s with
  | .scalar => ([], [])
  | .strct fs => joinSpecs f (walkFieldsSpec fs e (orP p m))
  | .arrStruct fs => joinSpecs f (walkArrSpec fs e p m)
termination_by structural s

/-- Specification-side array loop (same shape as `walkArr`). -/
def walkArrSpec (efields : List (String × Schema)) (arrE : HExpr) (p m : HPred) : Specs :=
  match efields with
  | [] => ([], [])
  | (g, sg) :: rest =>
    let gE := fieldE (index0E arrE) g
    let nested := walkArrSubSpec sg g gE m
    let r := walkArrSpec rest arrE p m
    (nested.1 ++ (g, cntArr p arrE g) :: r.1,
     nested.2 ++ (g, keyWhere p (arrFieldMissing m gE)) :: r.2)
termination_by structural efields

/-- Specification-side dispatch inside the array loop. -/
def walkArrSubSpec (sg : Schema) (g : String) (gE : HExpr) (m : HPred) : Specs :=
  match sg with
  | .scalar => ([], [])
  | .strct fs => joinSpecs g (walkFieldsSpec fs gE m)
  | .arrStruct fs => joinSpecs g (walkFieldsSpec fs (index0E gE) m)
termination_by structural sg

end

/-- Dataset-level reduction of one count specification: sum of the per-row
contributions, failing if any row's evaluation fails. -/
def sumCount (c : Val → HRes Nat) : List Val → HRes Nat
  | [] => .ok 0
  | r :: rs => do
    let n ← c r
    let rest ← sumCount c rs
    pure (n + rest)

/-- Dataset-level reduction of one keys specification: collect the key of
every row whose flag holds, in row order, failing if any row's evaluation
fails. -/
def collectKeys (k : HPred) (keyOf : Val → Val) : List Val → HRes (List Val)
  | [] => .ok []
  | r :: rs => do
    let b ← k r
    let rest ← collectKeys k keyOf rs
    pure (if b then keyOf r :: rest else rest)

/-- A Hail table: its row schema (`ht.row`), key projection (`ht.key`) and
materialized rows in a fixed order. -/
structure HTable where
  fields : List (String × Schema)
  keyOf : Val → Val
  rows : List Val

/-- Evaluate all registered count specifications over the dataset. -/
def runCounts (specs : List (String × (Val → HRes Nat))) (rows : List Val) :
    HRes (List (String × Nat)) :=
  match specs with
  | [] => .ok []
  | pc :: rest => do
    let n ← sumCount pc.2 rows
    let others ← runCounts rest rows
    pure ((pc.1, n) :: others)

/-- Evaluate all registered keys specifications over the dataset. -/
def runKeys (specs : List (String × HPred)) (keyOf : Val → Val) (rows : List Val) :
    HRes (List (String × List Val)) :=
  match specs with
  | [] => .ok []
  | pk :: rest => do
    let l ← collectKeys pk.2 keyOf rows
    let others ← runKeys rest keyOf rows
    pure ((pk.1, l) :: others)

/-- The root expression `ht.row`: the row itself. -/
def initBase : HExpr := fun r => .ok r

/-- The root ancestor predicate `hl.bool(False)`. -/
def initP : HPred := fun _ => .ok false

/-- The function `count_missing_fields_with_keys(ht)`: walk the row schema starting from
the row itself with `parent_missing = hl.bool(False)`, then run the single
aggregation pass, yielding the `counts` and `missing_keys` mappings (or the
runtime error raised during aggregation). -/
def countMissingFieldsWithKeys (t : HTable) :
    HRes (List (String × Nat) × List (String × List Val)) := do
  let specs := walkFields t.fields initBase initP
  let counts ← runCounts specs.1 t.rows
  let keys ← runKeys specs.2 t.keyOf t.rows
  pure (counts, keys)

/-- Variant of `count_missing_fields_with_keys` driven by the
specification-side walker, used to compare the two. -/
def countMissingFieldsWithKeysSpec (t : HTable) :
    HRes (List (String × Nat) × List (String × List Val)) := do
  let specs := walkFieldsSpec t.fields initBase initP
  let counts ← runCounts specs.1 t.rows
  let keys ← runKeys specs.2 t.keyOf t.rows
  pure (counts, keys)

mutual

/-- A value contains no empty (non-missing) array anywhere inside it.
This is the precondition "empty ArrayStructExpressions have been replaced
with null" under which traversal cannot raise the out-of-bounds error. -/
def noEmptyV : Val → Bool
  | .missing => true
  | .atom _ => true
  | .struct fs => noEmptyFields fs
  | .array es => !es.isEmpty && noEmptyElems es
termination_by structural v => v

/-- All field values of a struct contain no empty array. -/
def noEmptyFields : List (String × Val) → Bool
  | [] => true
  | (_, v) :: rest => noEmptyV v && noEmptyFields rest
termination_by structural l => l

/-- All elements of an array contain no empty array. -/
def noEmptyElems : List Val → Bool
  | [] => true
  | v :: rest => noEmptyV v && noEmptyElems rest
termination_by structural l => l

end

mutual

/-- Replace every empty array inside a value by a missing value (the
pre-normalization the tool documents: "replace empty
ArrayStructExpressions with null before using this tool"). -/
def normalizeV : Val → Val
  | .missing => .missing
  | .atom s => .atom s
  | .struct fs => .struct (normalizeFields fs)
  | .array es =>
    match es with
    | [] => .missing
    | e :: rest => .array (normalizeV e :: normalizeElems rest)
termination_by structural v => v

/-- Normalize every field value of a struct. -/
def normalizeFields : List (String × Val) → List (String × Val)
  | [] => []
  | (k, v) :: rest => (k, normalizeV v) :: normalizeFields rest
termination_by structural l => l

/-- Normalize every element of an array. -/
def normalizeElems : List Val → List Val
  | [] => []
  | v :: rest => normalizeV v :: normalizeElems rest
termination_by structural l => l

end

/-- A table whose rows have had all empty arrays replaced by missing. -/
def normalizeTable (t : HTable) : HTable :=
  ⟨t.fields, t.keyOf, t.rows.map normalizeV⟩

mutual

/-- Python `str()` rendering of a key value after `struct_to_dict`, as it
appears inside a CSV cell written by `df.to_csv`. -/
def pyObj : Val → String
  | .missing => "None"
  | .atom s => "\x27" ++ s ++ "\x27"
  | .struct fs => "\x7b" ++ pyObjFields fs ++ "\x7d"
  | .array es => "[" ++ pyObjElems es ++ "]"
termination_by structural v => v

/-- Rendering of dict items, comma separated. -/
def pyObjFields : List (String × Val) → String
  | [] => ""
  | [(k, v)] => "\x27" ++ k ++ "\x27: " ++ pyObj v
  | (k, v) :: rest => "\x27" ++ k ++ "\x27: " ++ pyObj v ++ ", " ++ pyObjFields rest
termination_by structural l => l

/-- Rendering of list items, comma separated. -/
def pyObjElems : List Val → String
  | [] => ""
  | [v] => pyObj v
  | v :: rest => pyObj v ++ ", " ++ pyObjElems rest
termination_by structural l => l

end

/-- Python exception values as classified by the report builder:
`HailUserError` raised by the engine, `ValueError` (the documented
empty-list precondition failure) and `RuntimeError` (the generic
computation failure) each carrying their `from` cause, and the bare
`Exception` used for the missing-configuration failure. -/
inductive PyExc where
  | hailUserError (msg : String)
  | valueError (msg : String) (cause : PyExc)
  | runtimeError (msg : String) (cause : PyExc)
  | exception (msg : String)
  deriving DecidableEq

/-- A cell of the report DataFrame: an integer, a float (modelled as an
exact rational), a plain string, or a structured list of key records.
`pd.read_csv` can only ever produce the first three. -/
inductive Cell where
  | nat (n : Nat)
  | rat (q : Rat)
  | str (s : String)
  | keyList (ks : List Val)

/-- Whether a cell holds a structured list of key records. -/
def Cell.isKeyList : Cell → Bool
  | .keyList _ => true
  | _ => false

/-- One row of the report DataFrame, with the four ordered columns
`field`, `counts`, `missing_keys`, `missing_percent`. -/
structure DfRow where
  field : String
  counts : Cell
  missing_keys : Cell
  missing_percent : Cell

/-- Build the report DataFrame from the aggregation result exactly as the
code does: `field` and `counts` from the counts dict, `missing_keys` from
the keys dict zipped positionally, and
`missing_percent = (counts / total_rows) * 100`. -/
def mkDf (cs : List (String × Nat)) (ks : List (String × List Val)) (total : Nat) :
    List DfRow :=
  (cs.zip ks).map (fun x =>
    ⟨x.1.1, Cell.nat x.1.2, Cell.keyList x.2.2,
     Cell.rat (((x.1.2 : Rat) / (total : Rat)) * 100)⟩)

/-- A CSV file: the data rows, each a list of cells rendered as strings. -/
abbrev Csv := List (List String)

/-- Decimal digit character. -/
def digitChar (n : Nat) : Char := Char.ofNat (48 + n)

/-- Digits of a natural number, most significant first (fuel-driven). -/
def natToCharsAux : Nat → Nat → List Char
  | 0, _ => []
  | fuel + 1, n =>
    if n < 10 then [digitChar n]
    else natToCharsAux fuel (n / 10) ++ [digitChar (n % 10)]

/-- Decimal rendering of a natural number. -/
def natToString (n : Nat) : String := ⟨natToCharsAux (n + 1) n⟩

/-- Decimal rendering of an integer. -/
def intToString (i : Int) : String :=
  match i with
  | .ofNat n => natToString n
  | .negSucc n => "-" ++ natToString (n + 1)

/-- Decimal rendering of a float cell as written by `to_csv` (an integral
float prints with a trailing `.0`). -/
def ratToString (q : Rat) : String :=
  if q.den = 1 then intToString q.num ++ ".0"
  else intToString q.num ++ "/" ++ natToString q.den

/-- String rendering of a DataFrame cell as written by `df.to_csv`:
numbers print as numbers, and a list-of-dicts column is flattened to its
Python string representation. -/
def cellToString : Cell → String
  | .nat n => natToString n
  | .rat q => ratToString q
  | .str s => s
  | .keyList ks => pyObj (.array ks)

/-- Model of `df.to_csv(path, index=False)`: render every row's four cells. -/
def writeCsv (df : List DfRow) : Csv :=
  df.map (fun r =>
    [r.field, cellToString r.counts, cellToString r.missing_keys,
     cellToString r.missing_percent])

/-- Numeric value of a decimal digit character. -/
def digitVal (c : Char) : Option Nat :=
  if 48 ≤ c.toNat && c.toNat ≤ 57 then some (c.toNat - 48) else none

/-- Accumulating parser for a run of decimal digits. -/
def charsToNatAux (acc : Nat) : List Char → Option Nat
  | [] => some acc
  | c :: rest =>
    match digitVal c with
    | some d => charsToNatAux (acc * 10 + d) rest
    | none => none

/-- Parse a nonempty all-digit character list as a natural number. -/
def charsToNat? (l : List Char) : Option Nat :=
  match l with
  | [] => none
  | _ => charsToNatAux 0 l

/-- Split a character list at every occurrence of a separator. -/
def splitOnChar (c : Char) : List Char → List (List Char)
  | [] => [[]]
  | x :: rest =>
    let r := splitOnChar c rest
    if x = c then [] :: r
    else
      match r with
      | h :: t => (x :: h) :: t
      | [] => [[x]]

/-- Parse a decimal literal such as `50.0` back to a rational, as
`pd.read_csv` type inference does for float columns. -/
def parseDecimal (s : String) : Option Rat :=
  match splitOnChar ('.') s.data with
  | [a, b] =>
    match charsToNat? a, charsToNat? b with
    | some x, some y => some ((x : Rat) + (y : Rat) / ((10 : Rat) ^ b.length))
    | _, _ => none
  | _ => none

/-- Model of `pd.read_csv` cell parsing: an integer cell reloads as an integer, a
decimal cell as a float, and anything else — including the flattened
rendering of a list of key records — as a plain string.  `read_csv` never
reconstructs structured lists. -/
def parseCell (s : String) : Cell :=
  match charsToNat? s.data with
  | some n => .nat n
  | none =>
    match parseDecimal s with
    | some q => .rat q
    | none => .str s

/-- Model of `pd.read_csv(path)`: reparse every data row into a DataFrame row. -/
def readCsv (csv : Csv) : List DfRow :=
  csv.map (fun cells =>
    match cells with
    | [f, c, k, p] => ⟨f, parseCell c, parseCell k, parseCell p⟩
    | _ => ⟨"", Cell.str "", Cell.str "", Cell.str ""⟩)

/-- Whether the first list is an initial segment of the second. -/
def listStarts : List Char → List Char → Bool
  | [], _ => true
  | _ :: _, [] => false
  | n :: ns, h :: hs => (n = h) && listStarts ns hs

/-- Whether the first list occurs inside the second. -/
def listFind (needle : List Char) : List Char → Bool
  | [] => needle.isEmpty
  | c :: rest => listStarts needle (c :: rest) || listFind needle rest

/-- Substring test, modelling Python's `pat in str(err)`. -/
def strContains (s pat : String) : Bool := listFind pat.data s.data

/-- Message pattern the builder looks for to recognize the empty-list
precondition violation. -/
def oobPattern : String := "array index out of bounds"

/-- Message of the `HailUserError` the engine raises on an empty-array
index (as asserted by the repository's own test). -/
def oobSummaryMsg : String := "Error summary: HailException: array index out of bounds"

/-- Message of the re-signalled `ValueError`. -/
def remediationMsg : String :=
  "MissingnessReport encountered index out of bounds. Replace empty ArrayStructExpressions with null."

/-- Message of the generic `RuntimeError` wrapper. -/
def computationFailureMsg : String := "An error occurred during the analysis of missingness."

/-- Message of the configuration failure raised when neither a cache nor a
table is available. -/
def configErrorMsg : String := "Could not find cached missingess and hail table is not available"

/-- Map the traversal's runtime error to the Python exception the engine
raises for it. -/
def hailCompute (t : HTable) :
    Except PyExc (List (String × Nat) × List (String × List Val)) :=
  match countMissingFieldsWithKeys t with
  | .ok x => .ok x
  | .error .indexOutOfBounds => .error (.hailUserError oobSummaryMsg)

/-- The builder's `try/except` classification around
`count_missing_fields_with_keys`: a `HailUserError` whose message contains
the out-of-bounds pattern is re-signalled as the documented `ValueError`
carrying its cause; any other `HailUserError` is re-raised unchanged (the
bare `raise` in the `else` branch); every non-`HailUserError` exception is
wrapped in the generic `RuntimeError` carrying its cause. -/
def handleComputeError (e : PyExc) : PyExc :=
  match e with
  | .hailUserError msg =>
    if strContains msg oobPattern then .valueError remediationMsg (.hailUserError msg)
    else .hailUserError msg
  | e => .runtimeError computationFailureMsg e

/-- Model of `MissingnessReport._load_or_compute_df`.  The first argument models the
`cache_path` argument together with the state of the file system at it:
`none` means no cache path was given, `some none` a cache path whose file
does not exist, `some (some csv)` a cache path holding a persisted CSV.
The second argument is the optional Hail table.  The result carries the
returned DataFrame and the CSV written to the cache path, if any. -/
def loadOrComputeDf (cacheFile : Option (Option Csv)) (ht : Option HTable) :
    Except PyExc (List DfRow × Option Csv) :=
  match cacheFile with
  | some (some csv) => .ok (readCsv csv, none)
  | _ =>
    match ht with
    | none => .error (.exception configErrorMsg)
    | some t =>
      match hailCompute t with
      | .error e => .error (handleComputeError e)
      | .ok x =>
        let df := mkDf x.1 x.2 t.rows.length
        match cacheFile with
        | some none => .ok (df, some (writeCsv df))
        | _ => .ok (df, none)

mutual

/-- A schema with no List-of-Record node anywhere. -/
def noArrS : Schema → Bool
  | .scalar => true
  | .strct fs => noArrL fs
  | .arrStruct _ => false
termination_by structural s => s

/-- All schemas of a field list contain no List-of-Record node. -/
def noArrL : List (String × Schema) → Bool
  | [] => true
  | (_, s) :: rest => noArrS s && noArrL rest
termination_by structural l => l

end

/-- Specification-side count of elements of a list value whose subfield `g`
is missing ("number of elements across the list whose g is missing"). -/
def elemsMissingCount (g : String) : Val → Nat
  | .array es => es.countP (fun e => isMissingV (getFieldV e g))
  | _ => 0

/-- The representative (first) element of a list value, missing when the
list is missing. -/
def firstOrMissing : Val → Val
  | .array (e :: _) => e
  | _ => .missing

/-- A fixed key projection for the concrete example tables. -/
def exKey : Val → Val := fun _ => .atom "k"

/-- Example: one row whose List-of-Record field `f` holds a single element
whose record subfield `s` is missing. -/
def tDouble : HTable :=
  ⟨[("f", .arrStruct [("s", .strct [("t", .scalar)])])], exKey,
   [.struct [("f", .array [.struct [("s", .missing)]])]]⟩

/-- Example: one row whose List-of-Record field `f` has a first element with
`g` present and a second element with `g` missing. -/
def tAnyElem : HTable :=
  ⟨[("f", .arrStruct [("g", .scalar)])], exKey,
   [.struct [("f", .array [.struct [("g", .atom "x")], .struct [("g", .missing)]])]]⟩

/-- Example: one row whose List-of-Record field `f` has two elements with
`g` missing and one with `g` present. -/
def tOverCount : HTable :=
  ⟨[("f", .arrStruct [("g", .scalar)])], exKey,
   [.struct [("f", .array
     [.struct [("g", .missing)], .struct [("g", .missing)], .struct [("g", .atom "x")]])]]⟩

/-- Example: a doubly nested List-of-Record where the inner list is empty
(not missing) only in the second element of the outer list. -/
def tNestedEmpty : HTable :=
  ⟨[("f", .arrStruct [("g", .arrStruct [("h", .scalar)])])], exKey,
   [.struct [("f", .array
     [.struct [("g", .array [.struct [("h", .atom "1")]])],
      .struct [("g", .array [])]])]]⟩

/-- Example: one row whose top-level List-of-Record field `f` holds an
empty (not missing) list. -/
def tTopEmpty : HTable :=
  ⟨[("f", .arrStruct [("g", .scalar)])], exKey,
   [.struct [("f", .array [])]]⟩

/-- Example: a record-only schema, one row with `a.b` missing and one row
with the whole record `a` missing. -/
def tRec : HTable :=
  ⟨[("a", .strct [("b", .scalar)])], exKey,
   [.struct [("a", .struct [("b", .missing)])], .struct [("a", .missing)]]⟩

/-- Example: a two-row keyed table with one missing value, used to exercise
the CSV cache round trip. -/
def tCsv : HTable :=
  ⟨[("k1", .scalar), ("a", .scalar)],
   fun r => .struct [("k1", getFieldV r "k1")],
   [.struct [("k1", .atom "key1"), ("a", .atom "1")],
    .struct [("k1", .atom "key3"), ("a", .missing)]]⟩

/-- Whether an exception is the generic `ComputationFailure` wrapper. -/
def isComputationFailure : PyExc → Bool
  | .runtimeError _ _ => true
  | _ => false

/-- The DataFrame the builder computes for `tCsv`. -/
def dfCsv : List DfRow :=
  [⟨"k1", Cell.nat 0, Cell.keyList [], Cell.rat 0⟩,
   ⟨"a", Cell.nat 1, Cell.keyList [.struct [("k1", .atom "key3")]], Cell.rat 50⟩]

/-- The CSV cache file the builder writes for `tCsv`. -/
def csvCsv : Csv :=
  [["k1", "0", "[]", "0.0"],
   ["a", "1", "[\x7b\x27k1\x27: \x27key3\x27\x7d]", "50.0"]]

/-- An expression that evaluates without error, to a value free of empty
arrays, on every row free of empty arrays. -/
def GoodE (e : HExpr) : Prop :=
  ∀ r, noEmptyV r = true → ∃ v, e r = .ok v ∧ noEmptyV v = true

/-- A predicate that evaluates without error on every row free of empty
arrays. -/
def GoodP (p : HPred) : Prop :=
  ∀ r, noEmptyV r = true → ∃ b, p r = .ok b

/-- Pairing of a registered count specification and keys specification
that evaluate, on every row, to the same boolean fact: the count
contribution is that boolean's indicator and the key flag is the boolean
itself.  Every record-rule registration satisfies this. -/
def BitRel (c : String × (Val → HRes Nat)) (k : String × HPred) : Prop :=
  c.1 = k.1 ∧ ∀ r, ∃ b : Bool, c.2 r = .ok (if b then 1 else 0) ∧ k.2 r = .ok b

/-- Relation between an ancestor predicate and the expression it guards:
an evaluation error in the predicate is already an error of the expression,
and whenever the predicate holds the expression is missing.  This is the
missingness-propagation fact that makes the code's one-level predicate
threading equivalent to the accumulated one. -/
def PredBase (p : HPred) (base : HExpr) : Prop :=
  (∀ r i, p r = .error i → base r = .error i) ∧
  (∀ r, p r = .ok true → base r = .ok .missing)

mutual

/-- The counts map and missing-keys map produced by the walker register the
same field paths in the same order. -/
theorem walkFields_paths_align (fields : List (String × Schema)) (base : HExpr) (p : HPred) :
    (walkFields fields base p).1.map Prod.fst = (walkFields fields base p).2.map Prod.fst := by
  match fields with
  | [] => rfl
  | (f, s) :: rest =>
    have h1 := walkSub_paths_align s f (fieldE base f) p (missingE (fieldE base f))
    have h2 := walkFields_paths_align rest base p
    simp only [walkFields, List.map_cons, List.map_append, h1, h2]
termination_by structural fields

/-- Path alignment for the per-field dispatch. -/
theorem walkSub_paths_align (s : Schema) (f : String) (e : HExpr) (p m : HPred) :
    (walkSub s f e p m).1.map Prod.fst = (walkSub s f e p m).2.map Prod.fst := by
  match s with
  | .scalar => rfl
  | .strct fs =>
    have h := walkFields_paths_align fs e m
    simp only [walkSub, joinSpecs, List.map_map]
    simp only [Function.comp_def]
    have h1 : ((walkFields fs e m).1.map Prod.fst).map (pathJoin f) =
        ((walkFields fs e m).2.map Prod.fst).map (pathJoin f) := by rw [h]
    simpa only [List.map_map, Function.comp_def] using h1
  | .arrStruct fs =>
    have h := walkArr_paths_align fs e p m
    simp only [walkSub, joinSpecs, List.map_map]
    simp only [Function.comp_def]
    have h1 : ((walkArr fs e p m).1.map Prod.fst).map (pathJoin f) =
        ((walkArr fs e p m).2.map Prod.fst).map (pathJoin f) := by rw [h]
    simpa only [List.map_map, Function.comp_def] using h1
termination_by structural s

/-- Path alignment for the array loop. -/
theorem walkArr_paths_align (efields : List (String × Schema)) (arrE : HExpr) (p m : HPred) :
    (walkArr efields arrE p m).1.map Prod.fst = (walkArr efields arrE p m).2.map Prod.fst := by
  match efields with
  | [] => rfl
  | (g, sg) :: rest =>
    have h1 := walkArrSub_paths_align sg g (fieldE (index0E arrE) g) m
    have h2 := walkArr_paths_align rest arrE p m
    simp only [walkArr, List.map_append, List.map_cons, h1, h2]
termination_by structural efields

/-- Path alignment for the dispatch inside the array loop. -/
theorem walkArrSub_paths_align (sg : Schema) (g : String) (gE : HExpr) (m : HPred) :
    (walkArrSub sg g gE m).1.map Prod.fst = (walkArrSub sg g gE m).2.map Prod.fst := by
  match sg with
  | .scalar => rfl
  | .strct fs =>
    have h := walkFields_paths_align fs gE m
    simp only [walkArrSub, joinSpecs, List.map_map]
    simp only [Function.comp_def]
    have h1 : ((walkFields fs gE m).1.map Prod.fst).map (pathJoin g) =
        ((walkFields fs gE m).2.map Prod.fst).map (pathJoin g) := by rw [h]
    simpa only [List.map_map, Function.comp_def] using h1
  | .arrStruct fs =>
    have h := walkFields_paths_align fs (index0E gE) m
    simp only [walkArrSub, joinSpecs, List.map_map]
    simp only [Function.comp_def]
    have h1 : ((walkFields fs (index0E gE)  m).1.map Prod.fst).map (pathJoin g) =
        ((walkFields fs (index0E gE) m).2.map Prod.fst).map (pathJoin g) := by rw [h]
    simpa only [List.map_map, Function.comp_def] using h1
termination_by structural sg

end

/-- C10: for every input schema, the counts mapping and the missing-keys
mapping returned by the schema walker have exactly the same field-path keys,
registered in the same order; consequently every field path in the report
carries a missing-key entry, including paths with zero missing rows. -/
theorem claim_C10_paths_align (fields : List (String × Schema)) (base : HExpr) (p : HPred) :
    (walkFields fields base p).1.map Prod.fst = (walkFields fields base p).2.map Prod.fst :=
  walkFields_paths_align fields base p

/-- C8: when a cache location is supplied and a persisted report exists
there, construction loads and returns the parsed persisted report, performs
no computation and no validation against the supplied dataset (the result
does not depend on `ht` at all), and succeeds even when no dataset is
supplied. -/
theorem claim_C8_cache_short_circuit (csv : Csv) (ht : Option HTable) :
    loadOrComputeDf (some (some csv)) ht = .ok (readCsv csv, none) := rfl

/-- C9: when neither a dataset nor an existing cache is supplied — whether
no cache path was given, or the given path holds no file — the builder
fails with the configuration error before any computation over a dataset is
attempted. -/
theorem claim_C9_configuration_error :
    loadOrComputeDf none none = .error (.exception configErrorMsg) ∧
    loadOrComputeDf (some none) none = .error (.exception configErrorMsg) :=
  ⟨rfl, rfl⟩

/-- C7 counterexample: a `HailUserError` whose message does not mention the
out-of-bounds pattern is re-raised verbatim by the builder, not wrapped into
the generic `ComputationFailure` (`RuntimeError`) — the raw failure escapes
unwrapped. -/
theorem counterexample_C7_hail_error_unwrapped :
    handleComputeError (.hailUserError "fatal: job aborted") =
      .hailUserError "fatal: job aborted" ∧
    isComputationFailure (handleComputeError (.hailUserError "fatal: job aborted")) = false :=
  ⟨rfl, rfl⟩

/-- C7 (amended): every non-`HailUserError` failure raised during the
aggregation pass is wrapped and re-signalled as the generic
`ComputationFailure` (`RuntimeError`) carrying the original cause, while a
`HailUserError` not matching the out-of-bounds pattern is re-raised
unchanged. -/
theorem claim_C7_computation_failure_wrapping :
    (∀ e : PyExc, (∀ m, e ≠ .hailUserError m) →
      handleComputeError e = .runtimeError computationFailureMsg e) ∧
    (∀ msg, strContains msg oobPattern = false →
      handleComputeError (.hailUserError msg) = .hailUserError msg) := by
  constructor
  · intro e he
    match e with
    | .hailUserError m => exact absurd rfl (he m)
    | .valueError _ _ => rfl
    | .runtimeError _ _ => rfl
    | .exception _ => rfl
  · intro msg h
    simp only [handleComputeError, h]
    rfl

/-- C7 witness: the amended claim applied to the concrete generic exception
and the concrete non-matching `HailUserError`. -/
theorem claim_C7_witness :
    handleComputeError (.exception "disk full") =
      .runtimeError computationFailureMsg (.exception "disk full") ∧
    handleComputeError (.hailUserError "fatal: job aborted") =
      .hailUserError "fatal: job aborted" :=
  ⟨claim_C7_computation_failure_wrapping.1 (.exception "disk full")
    (fun _ h => PyExc.noConfusion h),
   claim_C7_computation_failure_wrapping.2 "fatal: job aborted" rfl⟩

/-- C1 counterexample: in the single row of `tDouble` the ancestor record at
path `f.s` — as evaluated by the walker's own representative-element
expression `expr[0]["s"]` — is missing, yet the descendant path `f.s.t`
still counts that row (count 1) and collects its key, while the ancestor's
own path `f.s` also counts it: the row is double counted. -/
theorem counterexample_C1_array_record_double_count :
    fieldE (index0E (fieldE initBase "f")) "s"
      (Val.struct [("f", Val.array [Val.struct [("s", Val.missing)]])]) = .ok .missing ∧
    countMissingFieldsWithKeys tDouble =
      .ok ([("f", 0), ("f.s.t", 1), ("f.s", 1)],
           [("f", []), ("f.s.t", [.atom "k"]), ("f.s", [.atom "k"])]) :=
  ⟨rfl, rfl⟩

/-- C2 counterexample: in the single row of `tAnyElem` the list `f` is
present and its second element has `g` missing (one element across the list,
as the registered count shows), yet the missing-keys list for `f.g` is
empty — the key is not collected, because the code tests only the first
element's `g`, not any element's. -/
theorem counterexample_C2_keys_use_first_element :
    elemsMissingCount "g"
      (getFieldV (Val.struct
        [("f", Val.array [Val.struct [("g", Val.atom "x")], Val.struct [("g", Val.missing)]])])
        "f") = 1 ∧
    countMissingFieldsWithKeys tAnyElem =
      .ok ([("f", 0), ("f.g", 1)], [("f", []), ("f.g", [])]) :=
  ⟨rfl, rfl⟩

/-- C3 counterexample: in `tOverCount` (one row, three list elements, two of
them with `g` missing) the count registered for `f.g` is 2 while the table
has a single row and the missing-key list for `f.g` has length 1: both
`missing_count ≤ total_rows` and `len(missing_keys) = missing_count` fail. -/
theorem counterexample_C3_array_count_exceeds_rows :
    countMissingFieldsWithKeys tOverCount =
      .ok ([("f", 0), ("f.g", 2)], [("f", []), ("f.g", [.atom "k"])]) ∧
    tOverCount.rows.length = 1 ∧ 2 > 1 :=
  ⟨rfl, rfl, by decide⟩

/-- C5: building the report for `tCsv` with a fresh cache location computes
`dfCsv` and persists `csvCsv`; re-constructing from the persisted location
returns the reparsed CSV.  Field names, counts and percentages survive the
round trip numerically, but the missing-keys column reloads as flat strings
instead of structured lists, so the reloaded report is not structurally
equal to the original: the CSV serialization chosen by the code does not
preserve list-of-records structure. -/
theorem claim_C5_csv_round_trip_loses_structure :
    loadOrComputeDf (some none) (some tCsv) = .ok (dfCsv, some csvCsv) ∧
    loadOrComputeDf (some (some csvCsv)) (some tCsv) = .ok (readCsv csvCsv, none) ∧
    (readCsv csvCsv).map DfRow.field = dfCsv.map DfRow.field ∧
    (readCsv csvCsv).map DfRow.counts = dfCsv.map DfRow.counts ∧
    (readCsv csvCsv).map DfRow.missing_percent = dfCsv.map DfRow.missing_percent ∧
    (readCsv csvCsv).map (fun r => r.missing_keys.isKeyList) = [false, false] ∧
    dfCsv.map (fun r => r.missing_keys.isKeyList) = [true, true] ∧
    readCsv csvCsv ≠ dfCsv := by
  have hm : mkDf [("k1", 0), ("a", 1)]
      [("k1", []), ("a", [.struct [("k1", .atom "key3")]])] 2 = dfCsv := by
    simp only [mkDf, dfCsv, List.zip_cons_cons, List.map_cons, List.zip_nil_right,
      List.map_nil]
    norm_num
  have e0 : ((0 : Nat) : Rat) + ((0 : Nat) : Rat) / ((10 : Rat) ^ 1) = 0 := by norm_num
  have e50 : ((50 : Nat) : Rat) + ((0 : Nat) : Rat) / ((10 : Rat) ^ 1) = 50 := by norm_num
  refine ⟨?_, rfl, rfl, rfl, ?_, rfl, rfl, ?_⟩
  · have h1 : loadOrComputeDf (some none) (some tCsv) =
        .ok (mkDf [("k1", 0), ("a", 1)]
              [("k1", []), ("a", [.struct [("k1", .atom "key3")]])] 2,
             some (writeCsv (mkDf [("k1", 0), ("a", 1)]
              [("k1", []), ("a", [.struct [("k1", .atom "key3")]])] 2))) := rfl
    rw [h1, hm]
    rfl
  · have h2 : (readCsv csvCsv).map DfRow.missing_percent =
        [Cell.rat (((0 : Nat) : Rat) + ((0 : Nat) : Rat) / ((10 : Rat) ^ 1)),
         Cell.rat (((50 : Nat) : Rat) + ((0 : Nat) : Rat) / ((10 : Rat) ^ 1))] := rfl
    rw [h2, e0, e50]
    rfl
  · intro h
    have hk := congrArg (List.map (fun r => r.missing_keys.isKeyList)) h
    have hl : ([false, false] : List Bool) = [true, true] := hk
    simp at hl

/-- Field access propagates an evaluation error of its base. -/
theorem fieldE_error {base : HExpr} {r : Val} {i : HErr} (f : String)
    (h : base r = .error i) : fieldE base f r = .error i := by
  simp [fieldE, h, Except.map]

/-- Field access on an evaluated base. -/
theorem fieldE_ok {base : HExpr} {r v : Val} (f : String)
    (h : base r = .ok v) : fieldE base f r = .ok (getFieldV v f) := by
  simp [fieldE, h, Except.map]

/-- Missingness testing propagates an evaluation error of its expression. -/
theorem missingE_error_iff {e : HExpr} {r : Val} {i : HErr} :
    missingE e r = .error i ↔ e r = .error i := by
  unfold missingE
  cases h : e r with
  | ok v => simp [Except.map]
  | error j => simp [Except.map]

/-- A true missingness test means the expression evaluated to missing. -/
theorem missingE_ok_true {e : HExpr} {r : Val}
    (h : missingE e r = .ok true) : e r = .ok .missing := by
  unfold missingE at h
  cases he : e r with
  | ok v =>
    rw [he] at h
    simp [Except.map] at h
    cases v with
    | missing => rfl
    | atom s => simp [isMissingV] at h
    | struct fs => simp [isMissingV] at h
    | array es => simp [isMissingV] at h
  | error j =>
    rw [he] at h
    simp [Except.map] at h

/-- Indexing propagates an evaluation error of its expression. -/
theorem index0E_error {e : HExpr} {r : Val} {i : HErr}
    (h : e r = .error i) : index0E e r = .error i := by
  unfold index0E
  rw [h]
  rfl

/-- Indexing a missing array evaluates to missing. -/
theorem index0E_missing {e : HExpr} {r : Val}
    (h : e r = .ok .missing) : index0E e r = .ok .missing := by
  unfold index0E
  rw [h]
  rfl

/-- A predicate is related to the missingness test of any expression it is
the missingness test of. -/
theorem predBase_missingE_self (e : HExpr) : PredBase (missingE e) e := by
  constructor
  · intro r i h
    exact missingE_error_iff.mp h
  · intro r h
    exact missingE_ok_true h

/-- The relation `PredBase` is preserved by extending the expression with a field
access. -/
theorem predBase_extend_field {p : HPred} {base : HExpr} (f : String)
    (hb : PredBase p base) : PredBase p (fieldE base f) := by
  constructor
  · intro r i h
    exact fieldE_error f (hb.1 r i h)
  · intro r h
    rw [fieldE_ok f (hb.2 r h)]
    rfl

/-- The relation `PredBase` is preserved by extending the expression with an index. -/
theorem predBase_extend_index0 {p : HPred} {e : HExpr}
    (hb : PredBase p e) : PredBase p (index0E e) := by
  constructor
  · intro r i h
    exact index0E_error (hb.1 r i h)
  · intro r h
    exact index0E_missing (hb.2 r h)

/-- Under missingness propagation, the accumulated ancestor predicate
`p OR is_missing(e)` collapses to `is_missing(e)` whenever `p` is related
to `e` by `PredBase`. -/
theorem orP_collapse {p : HPred} {e : HExpr} (hb : PredBase p e) :
    orP p (missingE e) = missingE e := by
  funext r
  unfold orP
  cases hp : p r with
  | error i =>
    have he := hb.1 r i hp
    have hm : missingE e r = .error i := missingE_error_iff.mpr he
    rw [hm]
    rfl
  | ok b =>
    cases b with
    | true =>
      have he := hb.2 r hp
      have hm : missingE e r = .ok true := by simp [missingE, he, Except.map, isMissingV]
      rw [hm]
      rfl
    | false =>
      cases hm : missingE e r with
      | error i => rfl
      | ok c => rfl

mutual

/-- The specification-side walker computes exactly the code's walker
whenever the incoming ancestor predicate is related to the traversed
expression by missingness propagation. -/
theorem walkFieldsSpec_eq (fields : List (String × Schema)) (base : HExpr) (p : HPred)
    (hb : PredBase p base) :
    walkFieldsSpec fields base p = walkFields fields base p := by
  match fields with
  | [] => rfl
  | (f, s) :: rest =>
    have h1 := walkSubSpec_eq s f (fieldE base f) p (predBase_extend_field f hb)
    have h2 := walkFieldsSpec_eq rest base p hb
    simp only [walkFieldsSpec, walkFields, h1, h2]
termination_by structural fields

/-- Per-field dispatch case of the equivalence. -/
theorem walkSubSpec_eq (s : Schema) (f : String) (e : HExpr) (p : HPred)
    (hb : PredBase p e) :
    walkSubSpec s f e p (missingE e) = walkSub s f e p (missingE e) := by
  match s with
  | .scalar => rfl
  | .strct fs =>
    have hcollapse := orP_collapse hb
    have h1 := walkFieldsSpec_eq fs e (missingE e) (predBase_missingE_self e)
    simp only [walkSubSpec, walkSub, hcollapse, h1]
  | .arrStruct fs =>
    have h1 := walkArrSpec_eq fs e p
    simp only [walkSubSpec, walkSub, h1]
termination_by structural s

/-- Array loop case of the equivalence. -/
theorem walkArrSpec_eq (efields : List (String × Schema)) (arrE : HExpr) (p : HPred) :
    walkArrSpec efields arrE p (missingE arrE) = walkArr efields arrE p (missingE arrE) := by
  match efields with
  | [] => rfl
  | (g, sg) :: rest =>
    have hgE : PredBase (missingE arrE) (fieldE (index0E arrE) g) :=
      predBase_extend_field g (predBase_extend_index0 (predBase_missingE_self arrE))
    have h1 := walkArrSubSpec_eq sg g (fieldE (index0E arrE) g) (missingE arrE) hgE
    have h2 := walkArrSpec_eq rest arrE p
    simp only [walkArrSpec, walkArr, h1, h2]
termination_by structural efields

/-- Dispatch inside the array loop, case of the equivalence. -/
theorem walkArrSubSpec_eq (sg : Schema) (g : String) (gE : HExpr) (m : HPred)
    (hb : PredBase m gE) :
    walkArrSubSpec sg g gE m = walkArrSub sg g gE m := by
  match sg with
  | .scalar => rfl
  | .strct fs =>
    have h1 := walkFieldsSpec_eq fs gE m hb
    simp only [walkArrSubSpec, walkArrSub, h1]
  | .arrStruct fs =>
    have h1 := walkFieldsSpec_eq fs (index0E gE) m (predBase_extend_index0 hb)
    simp only [walkArrSubSpec, walkArrSub, h1]
termination_by structural sg

end

/-- C4: the specification's record recursion — which passes
`ancestor_missing_predicate OR is_missing(v)` and merges the recursive
result under the `f.` path prefix — computes exactly the same counts and
key lists as the code's recursion, which passes only `is_missing(v)`, on
every dataset: missingness of a record propagates to accesses of its
fields, so the two predicates agree wherever they are evaluated. -/
theorem claim_C4_spec_predicate_equivalent (t : HTable) :
    countMissingFieldsWithKeysSpec t = countMissingFieldsWithKeys t := by
  have hb : PredBase initP initBase := by
    constructor
    · intro r i h
      exact absurd h (by simp [initP])
    · intro r h
      exact absurd h (by simp [initP])
  unfold countMissingFieldsWithKeysSpec countMissingFieldsWithKeys
  rw [walkFieldsSpec_eq t.fields initBase initP hb]

/-- Evaluation of a guarded count when the guard predicate holds. -/
theorem cntWhere_eval_true {p m : HPred} {r : Val} (hb : p r = .ok true) :
    cntWhere p m r = .ok 0 := by
  unfold cntWhere
  rw [hb]
  rfl

/-- Evaluation of a guarded count when the guard predicate fails. -/
theorem cntWhere_eval_false {p m : HPred} {r : Val} {c : Bool}
    (hb : p r = .ok false) (hc : m r = .ok c) :
    cntWhere p m r = .ok (if c then 1 else 0) := by
  unfold cntWhere
  rw [hb, hc]
  rfl

/-- Evaluation of a guarded keys flag when the guard predicate holds. -/
theorem keyWhere_eval_true {p m : HPred} {r : Val} (hb : p r = .ok true) :
    keyWhere p m r = .ok false := by
  unfold keyWhere
  rw [hb]
  rfl

/-- Evaluation of a guarded keys flag when the guard predicate fails. -/
theorem keyWhere_eval_false {p m : HPred} {r : Val} (hb : p r = .ok false) :
    keyWhere p m r = m r := by
  unfold keyWhere
  rw [hb]
  rfl

/-- Evaluation of the fold count when the guard predicate holds. -/
theorem cntArr_eval_true {p : HPred} {arrE : HExpr} {g : String} {r : Val}
    (hb : p r = .ok true) : cntArr p arrE g r = .ok 0 := by
  unfold cntArr
  rw [hb]
  rfl

/-- Evaluation of the fold count when the guard predicate fails. -/
theorem cntArr_eval_false {p : HPred} {arrE : HExpr} {g : String} {r v : Val}
    (hb : p r = .ok false) (hv : arrE r = .ok v) :
    cntArr p arrE g r = .ok (foldMissingCount g v) := by
  unfold cntArr
  rw [hb, hv]
  rfl

/-- Evaluation of the array-field-missing predicate. -/
theorem arrFieldMissing_eval {m : HPred} {gE : HExpr} {r : Val} {c b : Bool}
    (hc : m r = .ok c) (hg : missingE gE r = .ok b) :
    arrFieldMissing m gE r = .ok (c || b) := by
  unfold arrFieldMissing
  rw [hc, hg]
  rfl

/-- The array-field-missing predicate propagates an error of the
first-element expression. -/
theorem arrFieldMissing_error {m : HPred} {gE : HExpr} {r : Val} {c : Bool} {i : HErr}
    (hc : m r = .ok c) (hg : missingE gE r = .error i) :
    arrFieldMissing m gE r = .error i := by
  unfold arrFieldMissing
  rw [hc, hg]
  rfl

/-- A field looked up in a struct free of empty arrays is itself free of
empty arrays. -/
theorem noEmptyFields_lookup {fs : List (String × Val)} {f : String} {v : Val}
    (hfs : noEmptyFields fs = true) (hl : fs.lookup f = some v) : noEmptyV v = true := by
  induction fs with
  | nil => simp [List.lookup] at hl
  | cons kv rest ih =>
    obtain ⟨k, w⟩ := kv
    rw [noEmptyFields] at hfs
    simp only [Bool.and_eq_true] at hfs
    rw [List.lookup] at hl
    by_cases hk : f == k
    · rw [hk] at hl
      simp at hl
      exact hl ▸ hfs.1
    · simp only [Bool.not_eq_true] at hk
      rw [hk] at hl
      exact ih hfs.2 hl

/-- Field access preserves freedom from empty arrays. -/
theorem noEmptyV_getField {v : Val} (f : String) (h : noEmptyV v = true) :
    noEmptyV (getFieldV v f) = true := by
  cases v with
  | missing => rfl
  | atom s => rfl
  | struct fs =>
    rw [noEmptyV] at h
    have hv : getFieldV (Val.struct fs) f = (fs.lookup f).getD .missing := rfl
    rw [hv]
    cases hl : fs.lookup f with
    | none => rfl
    | some w =>
      simp only [Option.getD_some]
      exact noEmptyFields_lookup h hl
  | array es => rfl

/-- Indexing a value free of empty arrays never errors and yields its
representative element, itself free of empty arrays. -/
theorem index0V_noEmpty {v : Val} (h : noEmptyV v = true) :
    index0V v = .ok (firstOrMissing v) ∧ noEmptyV (firstOrMissing v) = true := by
  cases v with
  | missing => exact ⟨rfl, rfl⟩
  | atom s => exact ⟨rfl, rfl⟩
  | struct fs => exact ⟨rfl, rfl⟩
  | array es =>
    cases es with
    | nil => simp [noEmptyV, List.isEmpty] at h
    | cons x xs =>
      refine ⟨rfl, ?_⟩
      rw [noEmptyV] at h
      simp only [Bool.and_eq_true] at h
      have hx : noEmptyV x = true := by
        have h2 := h.2
        rw [noEmptyElems] at h2
        simp only [Bool.and_eq_true] at h2
        exact h2.1
      simpa [firstOrMissing] using hx

/-- The root expression is good. -/
theorem goodE_initBase : GoodE initBase := by
  intro r hr
  exact ⟨r, rfl, hr⟩

/-- The root predicate is good. -/
theorem goodP_initP : GoodP initP := by
  intro r hr
  exact ⟨false, rfl⟩

/-- Field access preserves goodness of expressions. -/
theorem goodE_fieldE {e : HExpr} (f : String) (he : GoodE e) : GoodE (fieldE e f) := by
  intro r hr
  obtain ⟨v, hv, hnv⟩ := he r hr
  exact ⟨getFieldV v f, fieldE_ok f hv, noEmptyV_getField f hnv⟩

/-- Indexing preserves goodness of expressions. -/
theorem goodE_index0E {e : HExpr} (he : GoodE e) : GoodE (index0E e) := by
  intro r hr
  obtain ⟨v, hv, hnv⟩ := he r hr
  obtain ⟨hidx, hne⟩ := index0V_noEmpty hnv
  refine ⟨firstOrMissing v, ?_, hne⟩
  unfold index0E
  rw [hv]
  simpa using hidx

/-- Missingness testing of a good expression is a good predicate. -/
theorem goodP_missingE {e : HExpr} (he : GoodE e) : GoodP (missingE e) := by
  intro r hr
  obtain ⟨v, hv, _⟩ := he r hr
  exact ⟨isMissingV v, by simp [missingE, hv, Except.map]⟩

/-- A guarded count specification over good inputs evaluates without
error. -/
theorem cntWhere_good {p m : HPred} (hp : GoodP p) (hm : GoodP m) :
    ∀ r, noEmptyV r = true → ∃ n, cntWhere p m r = .ok n := by
  intro r hr
  obtain ⟨b, hb⟩ := hp r hr
  obtain ⟨c, hc⟩ := hm r hr
  cases b with
  | true => exact ⟨0, cntWhere_eval_true hb⟩
  | false => exact ⟨if c then 1 else 0, cntWhere_eval_false hb hc⟩

/-- A guarded keys specification over good inputs evaluates without
error. -/
theorem keyWhere_good {p m : HPred} (hp : GoodP p) (hm : GoodP m) :
    ∀ r, noEmptyV r = true → ∃ b, keyWhere p m r = .ok b := by
  intro r hr
  obtain ⟨b, hb⟩ := hp r hr
  obtain ⟨c, hc⟩ := hm r hr
  cases b with
  | true => exact ⟨false, keyWhere_eval_true hb⟩
  | false => exact ⟨c, by rw [keyWhere_eval_false hb, hc]⟩

/-- The element-fold count specification over good inputs evaluates without
error. -/
theorem cntArr_good {p : HPred} {arrE : HExpr} (g : String)
    (hp : GoodP p) (he : GoodE arrE) :
    ∀ r, noEmptyV r = true → ∃ n, cntArr p arrE g r = .ok n := by
  intro r hr
  obtain ⟨b, hb⟩ := hp r hr
  obtain ⟨v, hv, _⟩ := he r hr
  cases b with
  | true => exact ⟨0, cntArr_eval_true hb⟩
  | false => exact ⟨foldMissingCount g v, cntArr_eval_false hb hv⟩

/-- The array-field-missing predicate over good inputs is good. -/
theorem arrFieldMissing_good {m : HPred} {gE : HExpr} (hm : GoodP m)
    (hg : GoodE gE) : GoodP (arrFieldMissing m gE) := by
  intro r hr
  obtain ⟨c, hc⟩ := hm r hr
  obtain ⟨b, hb⟩ := goodP_missingE hg r hr
  exact ⟨c || b, arrFieldMissing_eval hc hb⟩

mutual

/-- Every specification registered by the walker over good inputs evaluates
without error on every row free of empty arrays. -/
theorem walkFields_good (fields : List (String × Schema)) (base : HExpr) (p : HPred)
    (hbase : GoodE base) (hp : GoodP p) :
    (∀ c ∈ (walkFields fields base p).1, ∀ r, noEmptyV r = true → ∃ n, c.2 r = .ok n) ∧
    (∀ k ∈ (walkFields fields base p).2, ∀ r, noEmptyV r = true → ∃ b, k.2 r = .ok b) := by
  match fields with
  | [] => exact ⟨fun c hc => absurd hc (by simp [walkFields]), fun k hk => absurd hk (by simp [walkFields])⟩
  | (f, s) :: rest =>
    have he : GoodE (fieldE base f) := goodE_fieldE f hbase
    have hm : GoodP (missingE (fieldE base f)) := goodP_missingE he
    have hsub := walkSub_good s f (fieldE base f) p (missingE (fieldE base f)) he hp hm
    have hrest := walkFields_good rest base p hbase hp
    constructor
    · intro c hc
      rw [walkFields] at hc
      simp only [List.mem_cons, List.mem_append] at hc
      rcases hc with hc | hc | hc
      · subst hc
        exact cntWhere_good hp hm
      · exact hsub.1 c hc
      · exact hrest.1 c hc
    · intro k hk
      rw [walkFields] at hk
      simp only [List.mem_cons, List.mem_append] at hk
      rcases hk with hk | hk | hk
      · subst hk
        exact keyWhere_good hp hm
      · exact hsub.2 k hk
      · exact hrest.2 k hk
termination_by structural fields

/-- Goodness for the per-field dispatch. -/
theorem walkSub_good (s : Schema) (f : String) (e : HExpr) (p m : HPred)
    (he : GoodE e) (hp : GoodP p) (hm : GoodP m) :
    (∀ c ∈ (walkSub s f e p m).1, ∀ r, noEmptyV r = true → ∃ n, c.2 r = .ok n) ∧
    (∀ k ∈ (walkSub s f e p m).2, ∀ r, noEmptyV r = true → ∃ b, k.2 r = .ok b) := by
  match s with
  | .scalar => exact ⟨fun c hc => absurd hc (by simp [walkSub]), fun k hk => absurd hk (by simp [walkSub])⟩
  | .strct fs =>
    have hrec := walkFields_good fs e m he hm
    constructor
    · intro c hc
      rw [walkSub] at hc
      simp only [joinSpecs, List.mem_map] at hc
      obtain ⟨x, hx, hxe⟩ := hc
      have := hrec.1 x hx
      rw [← hxe] at *
      exact this
    · intro k hk
      rw [walkSub] at hk
      simp only [joinSpecs, List.mem_map] at hk
      obtain ⟨x, hx, hxe⟩ := hk
      have := hrec.2 x hx
      rw [← hxe] at *
      exact this
  | .arrStruct fs =>
    have hrec := walkArr_good fs e p m he hp hm
    constructor
    · intro c hc
      rw [walkSub] at hc
      simp only [joinSpecs, List.mem_map] at hc
      obtain ⟨x, hx, hxe⟩ := hc
      have := hrec.1 x hx
      rw [← hxe] at *
      exact this
    · intro k hk
      rw [walkSub] at hk
      simp only [joinSpecs, List.mem_map] at hk
      obtain ⟨x, hx, hxe⟩ := hk
      have := hrec.2 x hx
      rw [← hxe] at *
      exact this
termination_by structural s

/-- Goodness for the array loop. -/
theorem walkArr_good (efields : List (String × Schema)) (arrE : HExpr) (p m : HPred)
    (he : GoodE arrE) (hp : GoodP p) (hm : GoodP m) :
    (∀ c ∈ (walkArr efields arrE p m).1, ∀ r, noEmptyV r = true → ∃ n, c.2 r = .ok n) ∧
    (∀ k ∈ (walkArr efields arrE p m).2, ∀ r, noEmptyV r = true → ∃ b, k.2 r = .ok b) := by
  match efields with
  | [] => exact ⟨fun c hc => absurd hc (by simp [walkArr]), fun k hk => absurd hk (by simp [walkArr])⟩
  | (g, sg) :: rest =>
    have hgE : GoodE (fieldE (index0E arrE) g) := goodE_fieldE g (goodE_index0E he)
    have hsub := walkArrSub_good sg g (fieldE (index0E arrE) g) m hgE hm
    have hrest := walkArr_good rest arrE p m he hp hm
    constructor
    · intro c hc
      rw [walkArr] at hc
      simp only [List.mem_append, List.mem_cons] at hc
      rcases hc with hc | hc | hc
      · exact hsub.1 c hc
      · subst hc
        exact cntArr_good g hp he
      · exact hrest.1 c hc
    · intro k hk
      rw [walkArr] at hk
      simp only [List.mem_append, List.mem_cons] at hk
      rcases hk with hk | hk | hk
      · exact hsub.2 k hk
      · subst hk
        exact keyWhere_good hp (arrFieldMissing_good hm hgE)
      · exact hrest.2 k hk
termination_by structural efields

/-- Goodness for the dispatch inside the array loop. -/
theorem walkArrSub_good (sg : Schema) (g : String) (gE : HExpr) (m : HPred)
    (hg : GoodE gE) (hm : GoodP m) :
    (∀ c ∈ (walkArrSub sg g gE m).1, ∀ r, noEmptyV r = true → ∃ n, c.2 r = .ok n) ∧
    (∀ k ∈ (walkArrSub sg g gE m).2, ∀ r, noEmptyV r = true → ∃ b, k.2 r = .ok b) := by
  match sg with
  | .scalar => exact ⟨fun c hc => absurd hc (by simp [walkArrSub]), fun k hk => absurd hk (by simp [walkArrSub])⟩
  | .strct fs =>
    have hrec := walkFields_good fs gE m hg hm
    constructor
    · intro c hc
      rw [walkArrSub] at hc
      simp only [joinSpecs, List.mem_map] at hc
      obtain ⟨x, hx, hxe⟩ := hc
      have := hrec.1 x hx
      rw [← hxe] at *
      exact this
    · intro k hk
      rw [walkArrSub] at hk
      simp only [joinSpecs, List.mem_map] at hk
      obtain ⟨x, hx, hxe⟩ := hk
      have := hrec.2 x hx
      rw [← hxe] at *
      exact this
  | .arrStruct fs =>
    have hrec := walkFields_good fs (index0E gE) m (goodE_index0E hg) hm
    constructor
    · intro c hc
      rw [walkArrSub] at hc
      simp only [joinSpecs, List.mem_map] at hc
      obtain ⟨x, hx, hxe⟩ := hc
      have := hrec.1 x hx
      rw [← hxe] at *
      exact this
    · intro k hk
      rw [walkArrSub] at hk
      simp only [joinSpecs, List.mem_map] at hk
      obtain ⟨x, hx, hxe⟩ := hk
      have := hrec.2 x hx
      rw [← hxe] at *
      exact this
termination_by structural sg

end

/-- A count specification that evaluates on every row sums without error. -/
theorem sumCount_ok {c : Val → HRes Nat} {rows : List Val}
    (h : ∀ r ∈ rows, ∃ n, c r = .ok n) : ∃ n, sumCount c rows = .ok n := by
  induction rows with
  | nil => exact ⟨0, rfl⟩
  | cons r rs ih =>
    obtain ⟨n, hn⟩ := h r (List.mem_cons_self r rs)
    obtain ⟨tot, htot⟩ := ih (fun x hx => h x (List.mem_cons_of_mem r hx))
    refine ⟨n + tot, ?_⟩
    rw [sumCount, hn, htot]
    rfl

/-- A keys specification that evaluates on every row collects without
error. -/
theorem collectKeys_ok {k : HPred} {keyOf : Val → Val} {rows : List Val}
    (h : ∀ r ∈ rows, ∃ b, k r = .ok b) : ∃ l, collectKeys k keyOf rows = .ok l := by
  induction rows with
  | nil => exact ⟨[], rfl⟩
  | cons r rs ih =>
    obtain ⟨b, hb⟩ := h r (List.mem_cons_self r rs)
    obtain ⟨l, hl⟩ := ih (fun x hx => h x (List.mem_cons_of_mem r hx))
    refine ⟨if b then keyOf r :: l else l, ?_⟩
    rw [collectKeys, hb, hl]
    rfl

/-- Count specifications that all evaluate on all rows run without error. -/
theorem runCounts_ok {specs : List (String × (Val → HRes Nat))} {rows : List Val}
    (h : ∀ c ∈ specs, ∀ r ∈ rows, ∃ n, c.2 r = .ok n) :
    ∃ out, runCounts specs rows = .ok out := by
  induction specs with
  | nil => exact ⟨[], rfl⟩
  | cons pc rest ih =>
    obtain ⟨n, hn⟩ := sumCount_ok (h pc (List.mem_cons_self pc rest))
    obtain ⟨out, hout⟩ := ih (fun c hc => h c (List.mem_cons_of_mem pc hc))
    refine ⟨(pc.1, n) :: out, ?_⟩
    rw [runCounts, hn, hout]
    rfl

/-- Keys specifications that all evaluate on all rows run without error. -/
theorem runKeys_ok {specs : List (String × HPred)} {keyOf : Val → Val} {rows : List Val}
    (h : ∀ k ∈ specs, ∀ r ∈ rows, ∃ b, k.2 r = .ok b) :
    ∃ out, runKeys specs keyOf rows = .ok out := by
  induction specs with
  | nil => exact ⟨[], rfl⟩
  | cons pk rest ih =>
    obtain ⟨l, hl⟩ := collectKeys_ok (h pk (List.mem_cons_self pk rest))
    obtain ⟨out, hout⟩ := ih (fun k hk => h k (List.mem_cons_of_mem pk hk))
    refine ⟨(pk.1, l) :: out, ?_⟩
    rw [runKeys, hl, hout]
    rfl

mutual

/-- Normalization produces values free of empty arrays. -/
theorem noEmptyV_normalizeV (v : Val) : noEmptyV (normalizeV v) = true := by
  match v with
  | .missing => rfl
  | .atom s => rfl
  | .struct fs =>
    have h := noEmptyFields_normalizeFields fs
    simp only [normalizeV, noEmptyV]
    exact h
  | .array es =>
    match es with
    | [] => rfl
    | e :: rest =>
      have h1 := noEmptyV_normalizeV e
      have h2 := noEmptyElems_normalizeElems rest
      simp only [normalizeV, noEmptyV, noEmptyElems, List.isEmpty, Bool.not_false,
        Bool.true_and, Bool.and_eq_true]
      exact ⟨h1, h2⟩
termination_by structural v

/-- Normalization of struct fields produces fields free of empty arrays. -/
theorem noEmptyFields_normalizeFields (fs : List (String × Val)) :
    noEmptyFields (normalizeFields fs) = true := by
  match fs with
  | [] => rfl
  | (k, v) :: rest =>
    have h1 := noEmptyV_normalizeV v
    have h2 := noEmptyFields_normalizeFields rest
    simp only [normalizeFields, noEmptyFields, Bool.and_eq_true]
    exact ⟨h1, h2⟩
termination_by structural fs

/-- Normalization of array elements produces elements free of empty
arrays. -/
theorem noEmptyElems_normalizeElems (es : List Val) :
    noEmptyElems (normalizeElems es) = true := by
  match es with
  | [] => rfl
  | v :: rest =>
    have h1 := noEmptyV_normalizeV v
    have h2 := noEmptyElems_normalizeElems rest
    simp only [normalizeElems, noEmptyElems, Bool.and_eq_true]
    exact ⟨h1, h2⟩
termination_by structural es

end

/-- After normalizing empty lists away, the whole aggregation pass runs
without error on every table. -/
theorem countMissing_normalized_ok (t : HTable) :
    ∃ out, countMissingFieldsWithKeys (normalizeTable t) = .ok out := by
  have hgood := walkFields_good t.fields initBase initP goodE_initBase goodP_initP
  have hrows : ∀ r ∈ (normalizeTable t).rows, noEmptyV r = true := by
    intro r hr
    simp only [normalizeTable, List.mem_map] at hr
    obtain ⟨x, _, hx⟩ := hr
    rw [← hx]
    exact noEmptyV_normalizeV x
  obtain ⟨cs, hcs⟩ := runCounts_ok
    (fun c hc r hr => hgood.1 c hc r (hrows r hr))
  obtain ⟨ks, hks⟩ := runKeys_ok
    (fun k hk r hr => hgood.2 k hk r (hrows r hr))
  refine ⟨(cs, ks), ?_⟩
  unfold countMissingFieldsWithKeys
  simp only [normalizeTable] at hcs hks ⊢
  rw [hcs, hks]
  rfl

/-- Inversion: a successful collection evaluates its flag on every row. -/
theorem collectKeys_ok_forall {k : HPred} {keyOf : Val → Val} {rows : List Val}
    {l : List Val} (h : collectKeys k keyOf rows = .ok l) :
    ∀ r ∈ rows, ∃ b, k r = .ok b := by
  induction rows generalizing l with
  | nil => intro r hr; exact absurd hr (List.not_mem_nil r)
  | cons x xs ih =>
    intro r hr
    rw [collectKeys] at h
    cases hk : k x with
    | error i =>
      rw [hk] at h
      exact absurd h (fun hcontra => Except.noConfusion hcontra)
    | ok b =>
      rw [hk] at h
      cases hrest : collectKeys k keyOf xs with
      | error i =>
        rw [hrest] at h
        exact absurd h (fun hcontra => Except.noConfusion hcontra)
      | ok l2 =>
        rcases List.mem_cons.mp hr with hr | hr
        · subst hr
          exact ⟨b, hk⟩
        · exact ih hrest r hr

/-- Inversion: a successful keys run collects every specification without
error. -/
theorem runKeys_ok_forall {specs : List (String × HPred)} {keyOf : Val → Val}
    {rows : List Val} {out : List (String × List Val)}
    (h : runKeys specs keyOf rows = .ok out) :
    ∀ k ∈ specs, ∃ l, collectKeys k.2 keyOf rows = .ok l := by
  induction specs generalizing out with
  | nil => intro k hk; exact absurd hk (List.not_mem_nil k)
  | cons pk rest ih =>
    intro k hk
    rw [runKeys] at h
    cases hl : collectKeys pk.2 keyOf rows with
    | error i =>
      rw [hl] at h
      exact absurd h (fun hcontra => Except.noConfusion hcontra)
    | ok l =>
      rw [hl] at h
      cases hrest : runKeys rest keyOf rows with
      | error i =>
        rw [hrest] at h
        exact absurd h (fun hcontra => Except.noConfusion hcontra)
      | ok out2 =>
        rcases List.mem_cons.mp hk with hk | hk
        · subst hk
          exact ⟨l, hl⟩
        · exact ih hrest k hk

/-- Inversion: a successful aggregation ran its keys pass successfully. -/
theorem countMissing_ok_runKeys {t : HTable}
    {out : List (String × Nat) × List (String × List Val)}
    (h : countMissingFieldsWithKeys t = .ok out) :
    ∃ ks, runKeys (walkFields t.fields initBase initP).2 t.keyOf t.rows = .ok ks := by
  have h2 : (do
      let counts ← runCounts (walkFields t.fields initBase initP).1 t.rows
      let keys ← runKeys (walkFields t.fields initBase initP).2 t.keyOf t.rows
      pure (counts, keys) : HRes _) = .ok out := h
  cases hc : runCounts (walkFields t.fields initBase initP).1 t.rows with
  | error i =>
    rw [hc] at h2
    exact absurd h2 (fun hcontra => Except.noConfusion hcontra)
  | ok cs =>
    rw [hc] at h2
    cases hk : runKeys (walkFields t.fields initBase initP).2 t.keyOf t.rows with
    | error i =>
      rw [hk] at h2
      exact absurd h2 (fun hcontra => Except.noConfusion hcontra)
    | ok ks => exact ⟨ks, rfl⟩

/-- The keys specification registered for the first element field of a
top-level List-of-Record field is in the walker's keys map. -/
theorem mem_walkFields_arr_head {fields : List (String × Schema)}
    {f g : String} {sg : Schema} {gs : List (String × Schema)}
    (hmem : (f, Schema.arrStruct ((g, sg) :: gs)) ∈ fields) (base : HExpr) (p : HPred) :
    (pathJoin f g,
      keyWhere p (arrFieldMissing (missingE (fieldE base f))
        (fieldE (index0E (fieldE base f)) g))) ∈ (walkFields fields base p).2 := by
  induction fields with
  | nil => exact absurd hmem (List.not_mem_nil _)
  | cons fv rest ih =>
    rcases List.mem_cons.mp hmem with heq | htail
    · subst heq
      rw [walkFields]
      refine List.mem_cons_of_mem _ (List.mem_append_left _ ?_)
      show _ ∈ (walkSub (Schema.arrStruct ((g, sg) :: gs)) f (fieldE base f) p
        (missingE (fieldE base f))).2
      rw [walkSub]
      simp only [joinSpecs, List.mem_map]
      refine ⟨(g, keyWhere p (arrFieldMissing (missingE (fieldE base f))
        (fieldE (index0E (fieldE base f)) g))), ?_, rfl⟩
      rw [walkArr]
      exact List.mem_append_right _ (List.mem_cons_self _ _)
    · obtain ⟨f2, s2⟩ := fv
      rw [walkFields]
      exact List.mem_cons_of_mem _ (List.mem_append_right _ (ih htail))

/-- On a row whose top-level List-of-Record field holds an empty (not
missing) list, the registered keys specification for its first element
field evaluates to the out-of-bounds error. -/
theorem keyWhere_error_at_empty (f g : String) {r : Val}
    (h : getFieldV r f = .array []) :
    keyWhere initP (arrFieldMissing (missingE (fieldE initBase f))
      (fieldE (index0E (fieldE initBase f)) g)) r = .error .indexOutOfBounds := by
  have h1 : fieldE initBase f r = .ok (Val.array []) := by
    rw [← h]
    rfl
  have h2 : index0E (fieldE initBase f) r = .error .indexOutOfBounds := by
    unfold index0E
    rw [h1]
    rfl
  have h3 : fieldE (index0E (fieldE initBase f)) g r = .error .indexOutOfBounds :=
    fieldE_error g h2
  have h4 : missingE (fieldE (index0E (fieldE initBase f)) g) r =
      .error .indexOutOfBounds := missingE_error_iff.mpr h3
  have h5 : missingE (fieldE initBase f) r = .ok false := by
    unfold missingE
    rw [h1]
    rfl
  have h6 := arrFieldMissing_error h5 h4
  rw [keyWhere_eval_false rfl, h6]

/-- C6 (amended): if a top-level List-of-Record field with at least one
element field holds an empty (not null) list in some row, the aggregation
pass fails with the out-of-bounds error and the builder re-signals it as
the documented `ValueError` (empty-list precondition) with remediation
guidance, carrying the engine error as its cause.  Empty lists outside the
representative first-element path may escape detection (see the
counterexample).  After normalizing all empty lists to an absent value,
traversal succeeds on every table. -/
theorem claim_C6_empty_list_precondition :
    (∀ (t : HTable) (f g : String) (sg : Schema) (gs : List (String × Schema)) (r : Val),
      (f, Schema.arrStruct ((g, sg) :: gs)) ∈ t.fields → r ∈ t.rows →
      getFieldV r f = .array [] →
      countMissingFieldsWithKeys t = .error .indexOutOfBounds ∧
      loadOrComputeDf none (some t) =
        .error (.valueError remediationMsg (.hailUserError oobSummaryMsg))) ∧
    (∀ t : HTable, (countMissingFieldsWithKeys (normalizeTable t)).isOk = true) := by
  constructor
  · intro t f g sg gs r hmem hrow hempty
    have herr : countMissingFieldsWithKeys t = .error .indexOutOfBounds := by
      cases hres : countMissingFieldsWithKeys t with
      | error i =>
        cases i
        rfl
      | ok out =>
        obtain ⟨ks, hks⟩ := countMissing_ok_runKeys hres
        have hk := runKeys_ok_forall hks _ (mem_walkFields_arr_head hmem initBase initP)
        obtain ⟨l, hl⟩ := hk
        obtain ⟨b, hb⟩ := collectKeys_ok_forall hl r hrow
        have hb2 : keyWhere initP (arrFieldMissing (missingE (fieldE initBase f))
            (fieldE (index0E (fieldE initBase f)) g)) r = Except.ok b := hb
        exact Except.noConfusion (hb2.symm.trans (keyWhere_error_at_empty f g hempty))
    refine ⟨herr, ?_⟩
    have hhail : hailCompute t = .error (.hailUserError oobSummaryMsg) := by
      unfold hailCompute
      rw [herr]
    simp only [loadOrComputeDf]
    rw [hhail]
    rfl
  · intro t
    obtain ⟨out, hout⟩ := countMissing_normalized_ok t
    rw [hout]
    rfl

/-- C6 witness: the amended claim applied to the concrete table with a
top-level empty list and to the normalization of the nested-empty table. -/
theorem claim_C6_witness :
    (countMissingFieldsWithKeys tTopEmpty = .error .indexOutOfBounds ∧
     loadOrComputeDf none (some tTopEmpty) =
       .error (.valueError remediationMsg (.hailUserError oobSummaryMsg))) ∧
    (countMissingFieldsWithKeys (normalizeTable tNestedEmpty)).isOk = true :=
  ⟨claim_C6_empty_list_precondition.1 tTopEmpty "f" "g" .scalar []
    (Val.struct [("f", Val.array [])])
    (List.mem_singleton.mpr rfl) (List.mem_singleton.mpr rfl) rfl,
   claim_C6_empty_list_precondition.2 tNestedEmpty⟩

mutual

/-- Suppression: when at a given row the parent predicate holds and the
traversed expression is missing, every specification registered below
contributes 0 to its count and does not collect the row's key. -/
theorem walkFields_suppress (fields : List (String × Schema)) (base : HExpr) (p : HPred)
    (r : Val) (hp : p r = .ok true) (hb : base r = .ok .missing) :
    (∀ c ∈ (walkFields fields base p).1, c.2 r = .ok 0) ∧
    (∀ k ∈ (walkFields fields base p).2, k.2 r = .ok false) := by
  match fields with
  | [] =>
    exact ⟨fun c hc => absurd hc (by simp [walkFields]),
           fun k hk => absurd hk (by simp [walkFields])⟩
  | (f, s) :: rest =>
    have he : fieldE base f r = .ok .missing := by
      rw [fieldE_ok f hb]
      rfl
    have hm : missingE (fieldE base f) r = .ok true := by
      unfold missingE
      rw [he]
      rfl
    have hsub := walkSub_suppress s f (fieldE base f) p (missingE (fieldE base f)) r hp hm he
    have hrest := walkFields_suppress rest base p r hp hb
    constructor
    · intro c hc
      rw [walkFields] at hc
      simp only [List.mem_cons, List.mem_append] at hc
      rcases hc with hc | hc | hc
      · subst hc
        exact cntWhere_eval_true hp
      · exact hsub.1 c hc
      · exact hrest.1 c hc
    · intro k hk
      rw [walkFields] at hk
      simp only [List.mem_cons, List.mem_append] at hk
      rcases hk with hk | hk | hk
      · subst hk
        exact keyWhere_eval_true hp
      · exact hsub.2 k hk
      · exact hrest.2 k hk
termination_by structural fields

/-- Suppression for the per-field dispatch. -/
theorem walkSub_suppress (s : Schema) (f : String) (e : HExpr) (p m : HPred)
    (r : Val) (hp : p r = .ok true) (hm : m r = .ok true) (he : e r = .ok .missing) :
    (∀ c ∈ (walkSub s f e p m).1, c.2 r = .ok 0) ∧
    (∀ k ∈ (walkSub s f e p m).2, k.2 r = .ok false) := by
  match s with
  | .scalar =>
    exact ⟨fun c hc => absurd hc (by simp [walkSub]),
           fun k hk => absurd hk (by simp [walkSub])⟩
  | .strct fs =>
    have hrec := walkFields_suppress fs e m r hm he
    constructor
    · intro c hc
      rw [walkSub] at hc
      simp only [joinSpecs, List.mem_map] at hc
      obtain ⟨x, hx, hxe⟩ := hc
      have hval := hrec.1 x hx
      rw [← hxe]
      exact hval
    · intro k hk
      rw [walkSub] at hk
      simp only [joinSpecs, List.mem_map] at hk
      obtain ⟨x, hx, hxe⟩ := hk
      have hval := hrec.2 x hx
      rw [← hxe]
      exact hval
  | .arrStruct fs =>
    have hrec := walkArr_suppress fs e p m r hp hm he
    constructor
    · intro c hc
      rw [walkSub] at hc
      simp only [joinSpecs, List.mem_map] at hc
      obtain ⟨x, hx, hxe⟩ := hc
      have hval := hrec.1 x hx
      rw [← hxe]
      exact hval
    · intro k hk
      rw [walkSub] at hk
      simp only [joinSpecs, List.mem_map] at hk
      obtain ⟨x, hx, hxe⟩ := hk
      have hval := hrec.2 x hx
      rw [← hxe]
      exact hval
termination_by structural s

/-- Suppression for the array loop. -/
theorem walkArr_suppress (efields : List (String × Schema)) (arrE : HExpr) (p m : HPred)
    (r : Val) (hp : p r = .ok true) (hm : m r = .ok true) (ha : arrE r = .ok .missing) :
    (∀ c ∈ (walkArr efields arrE p m).1, c.2 r = .ok 0) ∧
    (∀ k ∈ (walkArr efields arrE p m).2, k.2 r = .ok false) := by
  match efields with
  | [] =>
    exact ⟨fun c hc => absurd hc (by simp [walkArr]),
           fun k hk => absurd hk (by simp [walkArr])⟩
  | (g, sg) :: rest =>
    have hidx : index0E arrE r = .ok .missing := index0E_missing ha
    have hgE : fieldE (index0E arrE) g r = .ok .missing := by
      rw [fieldE_ok g hidx]
      rfl
    have hsub := walkArrSub_suppress sg g (fieldE (index0E arrE) g) m r hm hgE
    have hrest := walkArr_suppress rest arrE p m r hp hm ha
    constructor
    · intro c hc
      rw [walkArr] at hc
      simp only [List.mem_append, List.mem_cons] at hc
      rcases hc with hc | hc | hc
      · exact hsub.1 c hc
      · subst hc
        exact cntArr_eval_true hp
      · exact hrest.1 c hc
    · intro k hk
      rw [walkArr] at hk
      simp only [List.mem_append, List.mem_cons] at hk
      rcases hk with hk | hk | hk
      · exact hsub.2 k hk
      · subst hk
        exact keyWhere_eval_true hp
      · exact hrest.2 k hk
termination_by structural efields

/-- Suppression for the dispatch inside the array loop. -/
theorem walkArrSub_suppress (sg : Schema) (g : String) (gE : HExpr) (m : HPred)
    (r : Val) (hm : m r = .ok true) (hg : gE r = .ok .missing) :
    (∀ c ∈ (walkArrSub sg g gE m).1, c.2 r = .ok 0) ∧
    (∀ k ∈ (walkArrSub sg g gE m).2, k.2 r = .ok false) := by
  match sg with
  | .scalar =>
    exact ⟨fun c hc => absurd hc (by simp [walkArrSub]),
           fun k hk => absurd hk (by simp [walkArrSub])⟩
  | .strct fs =>
    have hrec := walkFields_suppress fs gE m r hm hg
    constructor
    · intro c hc
      rw [walkArrSub] at hc
      simp only [joinSpecs, List.mem_map] at hc
      obtain ⟨x, hx, hxe⟩ := hc
      have hval := hrec.1 x hx
      rw [← hxe]
      exact hval
    · intro k hk
      rw [walkArrSub] at hk
      simp only [joinSpecs, List.mem_map] at hk
      obtain ⟨x, hx, hxe⟩ := hk
      have hval := hrec.2 x hx
      rw [← hxe]
      exact hval
  | .arrStruct fs =>
    have hrec := walkFields_suppress fs (index0E gE) m r hm (index0E_missing hg)
    constructor
    · intro c hc
      rw [walkArrSub] at hc
      simp only [joinSpecs, List.mem_map] at hc
      obtain ⟨x, hx, hxe⟩ := hc
      have hval := hrec.1 x hx
      rw [← hxe]
      exact hval
    · intro k hk
      rw [walkArrSub] at hk
      simp only [joinSpecs, List.mem_map] at hk
      obtain ⟨x, hx, hxe⟩ := hk
      have hval := hrec.2 x hx
      rw [← hxe]
      exact hval
termination_by structural sg

end

/-- Every entry of the recursive walk of a record field appears, prefixed
with the field's name, in the outer walker result. -/
theorem mem_walkFields_strct {fields : List (String × Schema)} {f : String}
    {fs : List (String × Schema)} (hmem : (f, Schema.strct fs) ∈ fields)
    (base : HExpr) (p : HPred) :
    (∀ x ∈ (walkFields fs (fieldE base f) (missingE (fieldE base f))).1,
      (pathJoin f x.1, x.2) ∈ (walkFields fields base p).1) ∧
    (∀ y ∈ (walkFields fs (fieldE base f) (missingE (fieldE base f))).2,
      (pathJoin f y.1, y.2) ∈ (walkFields fields base p).2) := by
  induction fields with
  | nil => exact absurd hmem (List.not_mem_nil _)
  | cons fv rest ih =>
    rcases List.mem_cons.mp hmem with heq | htail
    · subst heq
      constructor
      · intro x hx
        rw [walkFields]
        refine List.mem_cons_of_mem _ (List.mem_append_left _ ?_)
        show _ ∈ (walkSub (Schema.strct fs) f (fieldE base f) p
          (missingE (fieldE base f))).1
        rw [walkSub]
        simp only [joinSpecs, List.mem_map]
        exact ⟨x, hx, rfl⟩
      · intro y hy
        rw [walkFields]
        refine List.mem_cons_of_mem _ (List.mem_append_left _ ?_)
        show _ ∈ (walkSub (Schema.strct fs) f (fieldE base f) p
          (missingE (fieldE base f))).2
        rw [walkSub]
        simp only [joinSpecs, List.mem_map]
        exact ⟨y, hy, rfl⟩
    · obtain ⟨f2, s2⟩ := fv
      constructor
      · intro x hx
        rw [walkFields]
        exact List.mem_cons_of_mem _ (List.mem_append_right _ ((ih htail).1 x hx))
      · intro y hy
        rw [walkFields]
        exact List.mem_cons_of_mem _ (List.mem_append_right _ ((ih htail).2 y hy))

/-- C1 (amended): whenever a Record-kind field `f` of the traversed node is
missing in a row — its value evaluated through the walker's own access
expression — every specification produced by the recursive walk into `f`
contributes 0 to its count at that row and does not collect that row's key,
and each of those specifications appears in the outer walker result under
the `f.`-prefixed descendant path.  (For a record nested inside a
List-of-Record element the suppression does not hold — see the
counterexample.) -/
theorem claim_C1_record_descendants_suppressed (fields : List (String × Schema))
    (base : HExpr) (p : HPred) (r : Val) (f : String) (fs : List (String × Schema))
    (hmem : (f, Schema.strct fs) ∈ fields) (hmiss : fieldE base f r = .ok .missing) :
    (∀ c ∈ (walkFields fs (fieldE base f) (missingE (fieldE base f))).1,
      c.2 r = .ok 0 ∧ (pathJoin f c.1, c.2) ∈ (walkFields fields base p).1) ∧
    (∀ k ∈ (walkFields fs (fieldE base f) (missingE (fieldE base f))).2,
      k.2 r = .ok false ∧ (pathJoin f k.1, k.2) ∈ (walkFields fields base p).2) := by
  have hm : missingE (fieldE base f) r = .ok true := by
    unfold missingE
    rw [hmiss]
    rfl
  have hsup := walkFields_suppress fs (fieldE base f) (missingE (fieldE base f)) r hm hmiss
  have hmm := mem_walkFields_strct hmem base p
  exact ⟨fun c hc => ⟨hsup.1 c hc, hmm.1 c hc⟩,
         fun k hk => ⟨hsup.2 k hk, hmm.2 k hk⟩⟩

/-- C1 witness: the amended claim applied to `tRec`'s second row, in which
the record `a` is missing: the descendant specification for `a.b`
contributes 0 and is registered at the prefixed path. -/
theorem claim_C1_witness :
    (cntWhere (missingE (fieldE initBase "a"))
        (missingE (fieldE (fieldE initBase "a") "b"))) (Val.struct [("a", Val.missing)]) =
      .ok 0 ∧
    (pathJoin "a" "b", cntWhere (missingE (fieldE initBase "a"))
        (missingE (fieldE (fieldE initBase "a") "b"))) ∈
      (walkFields tRec.fields initBase initP).1 :=
  (claim_C1_record_descendants_suppressed tRec.fields initBase initP
      (Val.struct [("a", Val.missing)]) "a" [("b", Schema.scalar)]
      (List.mem_singleton.mpr rfl) rfl).1
    ("b", cntWhere (missingE (fieldE initBase "a"))
        (missingE (fieldE (fieldE initBase "a") "b")))
    (List.Mem.head _)

/-- Appending preserves `Forall₂`. -/
theorem forall₂_app {α β : Type} {R : α → β → Prop} {l1 l3 : List α} {l2 l4 : List β}
    (h1 : List.Forall₂ R l1 l2) (h2 : List.Forall₂ R l3 l4) :
    List.Forall₂ R (l1 ++ l3) (l2 ++ l4) := by
  induction h1 with
  | nil => exact h2
  | cons hr _ ih => exact List.Forall₂.cons hr ih

/-- Re-keying both sides of a walker result preserves the bit pairing. -/
theorem bitRel_joinSpecs {f : String} {a : List (String × (Val → HRes Nat))}
    {b : List (String × HPred)} (h : List.Forall₂ BitRel a b) :
    List.Forall₂ BitRel (a.map (fun x => (pathJoin f x.1, x.2)))
      (b.map (fun x => (pathJoin f x.1, x.2))) := by
  induction h with
  | nil => exact List.Forall₂.nil
  | cons hr _ ih =>
    refine List.Forall₂.cons ?_ ih
    exact ⟨by simp only [hr.1], hr.2⟩

mutual

/-- Over a schema with no List-of-Record node, the walker's counts and keys
specifications pair up as indicator/flag of one shared boolean per row,
provided the traversed expression and the ancestor predicate always
evaluate. -/
theorem walkFields_bits (fields : List (String × Schema)) (base : HExpr) (p : HPred)
    (hnoarr : noArrL fields = true)
    (hbase : ∀ r, ∃ v, base r = .ok v) (hp : ∀ r, ∃ b, p r = .ok b) :
    List.Forall₂ BitRel (walkFields fields base p).1 (walkFields fields base p).2 := by
  match fields with
  | [] => exact List.Forall₂.nil
  | (f, s) :: rest =>
    rw [noArrL] at hnoarr
    simp only [Bool.and_eq_true] at hnoarr
    have he : ∀ r, ∃ v, fieldE base f r = .ok v := by
      intro r
      obtain ⟨v, hv⟩ := hbase r
      exact ⟨getFieldV v f, fieldE_ok f hv⟩
    have hm : ∀ r, ∃ b, missingE (fieldE base f) r = .ok b := by
      intro r
      obtain ⟨v, hv⟩ := he r
      exact ⟨isMissingV v, by unfold missingE; rw [hv]; rfl⟩
    have hown : BitRel (f, cntWhere p (missingE (fieldE base f)))
        (f, keyWhere p (missingE (fieldE base f))) := by
      refine ⟨rfl, fun r => ?_⟩
      obtain ⟨b, hb⟩ := hp r
      obtain ⟨c, hc⟩ := hm r
      cases b with
      | true => exact ⟨false, cntWhere_eval_true hb, keyWhere_eval_true hb⟩
      | false =>
        refine ⟨c, cntWhere_eval_false hb hc, ?_⟩
        show keyWhere p (missingE (fieldE base f)) r = Except.ok c
        rw [keyWhere_eval_false hb, hc]
    have hsub := walkSub_bits s f (fieldE base f) p (missingE (fieldE base f))
      hnoarr.1 he hp hm
    have hrest := walkFields_bits rest base p hnoarr.2 hbase hp
    rw [walkFields]
    exact List.Forall₂.cons hown (forall₂_app hsub hrest)
termination_by structural fields

/-- Bit pairing for the per-field dispatch (no List-of-Record case by the
hypothesis). -/
theorem walkSub_bits (s : Schema) (f : String) (e : HExpr) (p m : HPred)
    (hnoarr : noArrS s = true)
    (he : ∀ r, ∃ v, e r = .ok v) (_hp : ∀ r, ∃ b, p r = .ok b)
    (hm : ∀ r, ∃ b, m r = .ok b) :
    List.Forall₂ BitRel (walkSub s f e p m).1 (walkSub s f e p m).2 := by
  match s with
  | .scalar => exact List.Forall₂.nil
  | .strct fs =>
    rw [noArrS] at hnoarr
    have hrec := walkFields_bits fs e m hnoarr he hm
    simp only [walkSub, joinSpecs]
    exact bitRel_joinSpecs hrec
  | .arrStruct fs =>
    rw [noArrS] at hnoarr
    exact absurd hnoarr (by simp)
termination_by structural s

end

/-- A bit-paired specification sums to the number of rows whose boolean
holds, and collects exactly those rows' keys: the key-list length equals
the count and the count is bounded by the number of rows. -/
theorem bits_sum_collect {c : Val → HRes Nat} {k : HPred} (keyOf : Val → Val)
    (rows : List Val)
    (h : ∀ r, ∃ b : Bool, c r = .ok (if b then 1 else 0) ∧ k r = .ok b) :
    ∃ n l, sumCount c rows = .ok n ∧ collectKeys k keyOf rows = .ok l ∧
      l.length = n ∧ n ≤ rows.length := by
  induction rows with
  | nil => exact ⟨0, [], rfl, rfl, rfl, Nat.le_refl 0⟩
  | cons r rs ih =>
    obtain ⟨n, l, hn, hl, hlen, hle⟩ := ih
    obtain ⟨b, hcb, hkb⟩ := h r
    refine ⟨(if b then 1 else 0) + n, if b then keyOf r :: l else l, ?_, ?_, ?_, ?_⟩
    · rw [sumCount, hcb, hn]
      rfl
    · rw [collectKeys, hkb, hl]
      rfl
    · cases b with
      | true =>
        simp [hlen]
        omega
      | false => simp [hlen]
    · cases b with
      | true =>
        simp only [List.length_cons]
        simp
        omega
      | false =>
        simp only [List.length_cons]
        simp
        omega

/-- Running bit-paired specifications yields aligned results whose key-list
lengths equal their counts, all bounded by the number of rows. -/
theorem bits_run {cs : List (String × (Val → HRes Nat))} {ks : List (String × HPred)}
    (keyOf : Val → Val) (rows : List Val) (h : List.Forall₂ BitRel cs ks) :
    ∃ cs2 ks2, runCounts cs rows = .ok cs2 ∧ runKeys ks keyOf rows = .ok ks2 ∧
      List.Forall₂ (fun c2 k2 => (c2 : String × Nat).1 = (k2 : String × List Val).1 ∧
        k2.2.length = c2.2 ∧ c2.2 ≤ rows.length) cs2 ks2 := by
  induction h with
  | nil => exact ⟨[], [], rfl, rfl, List.Forall₂.nil⟩
  | @cons c1 k1 cr kr hr hrest ih =>
    obtain ⟨cs2, ks2, hcs, hks, hrel⟩ := ih
    obtain ⟨n, l, hn, hl, hlen, hle⟩ := bits_sum_collect keyOf rows hr.2
    refine ⟨(c1.1, n) :: cs2, (k1.1, l) :: ks2, ?_, ?_, ?_⟩
    · rw [runCounts, hn, hcs]
      rfl
    · rw [runKeys, hl, hks]
      rfl
    · exact List.Forall₂.cons ⟨hr.1, hlen, hle⟩ hrel

/-- An element of the zip of `Forall₂`-related lists satisfies the
relation. -/
theorem forall₂_zip_mem {α β : Type} {R : α → β → Prop} {l1 : List α} {l2 : List β}
    {x : α × β} (h : List.Forall₂ R l1 l2) (hx : x ∈ l1.zip l2) : R x.1 x.2 := by
  induction h with
  | nil => exact absurd hx (List.not_mem_nil x)
  | cons hr _ ih =>
    rcases List.mem_cons.mp hx with hx | hx
    · subst hx
      exact hr
    · exact ih hx

/-- Inversion of a successful aggregation into its two passes. -/
theorem countMissing_ok_inv {t : HTable} {cs : List (String × Nat)}
    {ks : List (String × List Val)}
    (h : countMissingFieldsWithKeys t = .ok (cs, ks)) :
    runCounts (walkFields t.fields initBase initP).1 t.rows = .ok cs ∧
    runKeys (walkFields t.fields initBase initP).2 t.keyOf t.rows = .ok ks := by
  have h2 : (do
      let counts ← runCounts (walkFields t.fields initBase initP).1 t.rows
      let keys ← runKeys (walkFields t.fields initBase initP).2 t.keyOf t.rows
      pure (counts, keys) : HRes _) = .ok (cs, ks) := h
  cases hc : runCounts (walkFields t.fields initBase initP).1 t.rows with
  | error i =>
    rw [hc] at h2
    exact absurd h2 (fun hcontra => Except.noConfusion hcontra)
  | ok cs2 =>
    rw [hc] at h2
    cases hk : runKeys (walkFields t.fields initBase initP).2 t.keyOf t.rows with
    | error i =>
      rw [hk] at h2
      exact absurd h2 (fun hcontra => Except.noConfusion hcontra)
    | ok ks2 =>
      rw [hk] at h2
      have h3 : (Except.ok (cs2, ks2) : HRes _) = .ok (cs, ks) := h2
      have h4 := Except.ok.inj h3
      obtain ⟨h5, h6⟩ := Prod.mk.injEq .. ▸ h4
      exact ⟨congrArg Except.ok h5, congrArg Except.ok h6⟩

/-- C3 (amended): over a schema with no List-of-Record field, every row of
the computed report satisfies the invariant: the count is a natural number
at most the total row count, the missing-key list's length equals the
count, and the percentage equals `count / total_rows * 100` exactly (in
rational arithmetic).  For paths directly under a List-of-Record field the
count is an element sum that can exceed both the key-list length and the
total row count — see the counterexample. -/
theorem claim_C3_report_invariants (t : HTable) (cs : List (String × Nat))
    (ks : List (String × List Val)) (hnoarr : noArrL t.fields = true)
    (hok : countMissingFieldsWithKeys t = .ok (cs, ks)) :
    ∀ row ∈ mkDf cs ks t.rows.length, ∃ n l,
      row.counts = Cell.nat n ∧ n ≤ t.rows.length ∧
      row.missing_keys = Cell.keyList l ∧ l.length = n ∧
      row.missing_percent = Cell.rat (((n : Rat) / ((t.rows.length : Nat) : Rat)) * 100) := by
  have hbits := walkFields_bits t.fields initBase initP hnoarr
    (fun r => ⟨r, rfl⟩) (fun r => ⟨false, rfl⟩)
  obtain ⟨cs2, ks2, hcs, hks, hrel⟩ := bits_run t.keyOf t.rows hbits
  obtain ⟨hc0, hk0⟩ := countMissing_ok_inv hok
  have hcs2 : cs2 = cs := by
    have := hcs.symm.trans hc0
    exact Except.ok.inj this
  have hks2 : ks2 = ks := by
    have := hks.symm.trans hk0
    exact Except.ok.inj this
  subst hcs2
  subst hks2
  intro row hrow
  unfold mkDf at hrow
  simp only [List.mem_map] at hrow
  obtain ⟨x, hx, hxe⟩ := hrow
  have hr := forall₂_zip_mem hrel hx
  refine ⟨x.1.2, x.2.2, ?_, hr.2.2, ?_, hr.2.1, ?_⟩
  · rw [← hxe]
  · rw [← hxe]
  · rw [← hxe]

/-- C3 witness: the amended claim applied to the concrete record-only table
`tRec`, at the first report row. -/
theorem claim_C3_witness :
    ∃ n l,
      (DfRow.mk "a" (Cell.nat 1) (Cell.keyList [Val.atom "k"])
        (Cell.rat ((((1 : Nat) : Rat) / ((2 : Nat) : Rat)) * 100))).counts = Cell.nat n ∧
      n ≤ tRec.rows.length ∧
      (DfRow.mk "a" (Cell.nat 1) (Cell.keyList [Val.atom "k"])
        (Cell.rat ((((1 : Nat) : Rat) / ((2 : Nat) : Rat)) * 100))).missing_keys =
        Cell.keyList l ∧
      l.length = n ∧
      (DfRow.mk "a" (Cell.nat 1) (Cell.keyList [Val.atom "k"])
        (Cell.rat ((((1 : Nat) : Rat) / ((2 : Nat) : Rat)) * 100))).missing_percent =
        Cell.rat (((n : Rat) / ((tRec.rows.length : Nat) : Rat)) * 100) :=
  claim_C3_report_invariants tRec [("a", 1), ("a.b", 1)]
    [("a", [Val.atom "k"]), ("a.b", [Val.atom "k"])] rfl rfl
    (DfRow.mk "a" (Cell.nat 1) (Cell.keyList [Val.atom "k"])
      (Cell.rat ((((1 : Nat) : Rat) / ((2 : Nat) : Rat)) * 100)))
    (List.Mem.head _)

/-- Bind of a successful result, specialized to the aggregation monad. -/
theorem hres_bind_ok {α β : Type} (a : α) (f : α → HRes β) :
    (Except.ok a >>= f : HRes β) = f a := rfl

/-- A count specification that agrees row-wise with a pure function sums to
that function's total over the rows. -/
theorem sumCount_eval {c : Val → HRes Nat} {fn : Val → Nat} {rows : List Val}
    (h : ∀ r ∈ rows, c r = .ok (fn r)) :
    sumCount c rows = .ok ((rows.map fn).sum) := by
  induction rows with
  | nil => rfl
  | cons r rs ih =>
    rw [sumCount, h r (List.mem_cons_self r rs),
      ih (fun x hx => h x (List.mem_cons_of_mem r hx))]
    rfl

/-- A keys specification that agrees row-wise with a pure boolean collects
exactly the keys of the rows satisfying it, in row order. -/
theorem collectKeys_eval {k : HPred} {q : Val → Bool} {keyOf : Val → Val}
    {rows : List Val} (h : ∀ r ∈ rows, k r = .ok (q r)) :
    collectKeys k keyOf rows = .ok ((rows.filter q).map keyOf) := by
  induction rows with
  | nil => rfl
  | cons r rs ih =>
    rw [collectKeys, h r (List.mem_cons_self r rs),
      ih (fun x hx => h x (List.mem_cons_of_mem r hx))]
    cases hq : q r with
    | true => simp [List.filter, hq, hres_bind_ok]
    | false => simp [List.filter, hq, hres_bind_ok]

/-- The walker's fold-based element count equals the specification's count
of elements with the subfield missing. -/
theorem foldMissing_eq_elems (g : String) (v : Val) :
    foldMissingCount g v = elemsMissingCount g v := by
  cases v <;> simp [foldMissingCount, elemsMissingCount, List.countP_eq_length_filter]

/-- Evaluation of the first-element field access under the C2 schema, on a
row free of empty arrays. -/
theorem gE_evalC2 (r : Val) (g : String) (hr : noEmptyV r = true) :
    fieldE (index0E (fieldE (fieldE initBase "w") "f")) g r =
      .ok (getFieldV (firstOrMissing (getFieldV (getFieldV r "w") "f")) g) := by
  have hfv : noEmptyV (getFieldV (getFieldV r "w") "f") = true :=
    noEmptyV_getField "f" (noEmptyV_getField "w" hr)
  have hidx := (index0V_noEmpty hfv).1
  show (index0V (getFieldV (getFieldV r "w") "f")).map (fun v => getFieldV v g) = _
  rw [hidx]
  rfl

/-- Evaluation of the first-element missingness test under the C2 schema. -/
theorem gME_evalC2 (r : Val) (g : String) (hr : noEmptyV r = true) :
    missingE (fieldE (index0E (fieldE (fieldE initBase "w") "f")) g) r =
      .ok (isMissingV (getFieldV (firstOrMissing (getFieldV (getFieldV r "w") "f")) g)) := by
  show (fieldE (index0E (fieldE (fieldE initBase "w") "f")) g r).map isMissingV = _
  rw [gE_evalC2 r g hr]
  rfl

/-- Evaluation of the nested subfield missingness test under the C2
schema. -/
theorem hME_evalC2 (r : Val) (hr : noEmptyV r = true) :
    missingE (fieldE (fieldE (index0E (fieldE (fieldE initBase "w") "f")) "s") "h") r =
      .ok (isMissingV (getFieldV
        (getFieldV (firstOrMissing (getFieldV (getFieldV r "w") "f")) "s") "h")) := by
  show ((fieldE (index0E (fieldE (fieldE initBase "w") "f")) "s" r).map
    (fun v => getFieldV v "h")).map isMissingV = _
  rw [gE_evalC2 r "s" hr]
  rfl

/-- C2 (amended), stated over the representative nesting
`{w: {f: array[struct[g: scalar, s: {h: scalar}]]}}` for arbitrary rows free
of empty arrays: the count registered for the bare path `w.f.g` is the
number of elements across the list whose `g` is missing, summed per row and
guarded by the ancestor predicate `is_missing(w)`; the missing-keys for
`w.f.g` collect the row key once per row where the ancestor guard fails and
the list itself is missing OR the FIRST element's `g` is missing; and the
nested path `w.f.s.h` counts a row when the list is present and the FIRST
element's `s.h` is missing (representative-element recursion), its keys
collected under the same rule. -/
theorem claim_C2_list_aggregation (rows : List Val) (keyOf : Val → Val)
    (hne : ∀ r ∈ rows, noEmptyV r = true) :
    countMissingFieldsWithKeys
      ⟨[("w", .strct [("f", .arrStruct [("g", .scalar), ("s", .strct [("h", .scalar)])])])],
       keyOf, rows⟩ =
    .ok (
      [("w", (rows.map (fun r =>
          if isMissingV (getFieldV r "w") then 1 else 0)).sum),
       ("w.f", (rows.map (fun r =>
          if isMissingV (getFieldV r "w") then 0
          else if isMissingV (getFieldV (getFieldV r "w") "f") then 1 else 0)).sum),
       ("w.f.g", (rows.map (fun r =>
          if isMissingV (getFieldV r "w") then 0
          else elemsMissingCount "g" (getFieldV (getFieldV r "w") "f"))).sum),
       ("w.f.s.h", (rows.map (fun r =>
          if isMissingV (getFieldV (getFieldV r "w") "f") then 0
          else if isMissingV (getFieldV
            (getFieldV (firstOrMissing (getFieldV (getFieldV r "w") "f")) "s") "h")
          then 1 else 0)).sum),
       ("w.f.s", (rows.map (fun r =>
          if isMissingV (getFieldV r "w") then 0
          else elemsMissingCount "s" (getFieldV (getFieldV r "w") "f"))).sum)],
      [("w", (rows.filter (fun r => isMissingV (getFieldV r "w"))).map keyOf),
       ("w.f", (rows.filter (fun r =>
          !isMissingV (getFieldV r "w") &&
          isMissingV (getFieldV (getFieldV r "w") "f"))).map keyOf),
       ("w.f.g", (rows.filter (fun r =>
          !isMissingV (getFieldV r "w") &&
          (isMissingV (getFieldV (getFieldV r "w") "f") ||
           isMissingV (getFieldV
             (firstOrMissing (getFieldV (getFieldV r "w") "f")) "g")))).map keyOf),
       ("w.f.s.h", (rows.filter (fun r =>
          !isMissingV (getFieldV (getFieldV r "w") "f") &&
          isMissingV (getFieldV
            (getFieldV (firstOrMissing (getFieldV (getFieldV r "w") "f")) "s") "h"))).map
            keyOf),
       ("w.f.s", (rows.filter (fun r =>
          !isMissingV (getFieldV r "w") &&
          (isMissingV (getFieldV (getFieldV r "w") "f") ||
           isMissingV (getFieldV
             (firstOrMissing (getFieldV (getFieldV r "w") "f")) "s")))).map keyOf)]) := by
  have hw : ∀ r : Val, missingE (fieldE initBase "w") r =
      .ok (isMissingV (getFieldV r "w")) := fun r => rfl
  have hf : ∀ r : Val, missingE (fieldE (fieldE initBase "w") "f") r =
      .ok (isMissingV (getFieldV (getFieldV r "w") "f")) := fun r => rfl
  have hc1 : sumCount (cntWhere initP (missingE (fieldE initBase "w"))) rows =
      .ok ((rows.map (fun r => if isMissingV (getFieldV r "w") then 1 else 0)).sum) :=
    sumCount_eval (fun r _ => cntWhere_eval_false rfl (hw r))
  have hc2 : sumCount (cntWhere (missingE (fieldE initBase "w"))
      (missingE (fieldE (fieldE initBase "w") "f"))) rows =
      .ok ((rows.map (fun r =>
        if isMissingV (getFieldV r "w") then 0
        else if isMissingV (getFieldV (getFieldV r "w") "f") then 1 else 0)).sum) := by
    refine sumCount_eval (fun r _ => ?_)
    cases ha : isMissingV (getFieldV r "w") with
    | true =>
      rw [cntWhere_eval_true (by rw [hw r, ha])]
      simp [ha]
    | false =>
      rw [cntWhere_eval_false (by rw [hw r, ha]) (hf r)]
      simp [ha]
  have hc3 : sumCount (cntArr (missingE (fieldE initBase "w"))
      (fieldE (fieldE initBase "w") "f") "g") rows =
      .ok ((rows.map (fun r =>
        if isMissingV (getFieldV r "w") then 0
        else elemsMissingCount "g" (getFieldV (getFieldV r "w") "f"))).sum) := by
    refine sumCount_eval (fun r _ => ?_)
    cases ha : isMissingV (getFieldV r "w") with
    | true =>
      rw [cntArr_eval_true (by rw [hw r, ha])]
      simp [ha]
    | false =>
      rw [cntArr_eval_false
        (show missingE (fieldE initBase "w") r = .ok false by rw [hw r, ha])
        (show fieldE (fieldE initBase "w") "f" r =
          .ok (getFieldV (getFieldV r "w") "f") from rfl)]
      simp [ha, foldMissing_eq_elems]
  have hc4 : sumCount (cntWhere (missingE (fieldE (fieldE initBase "w") "f"))
      (missingE (fieldE (fieldE (index0E (fieldE (fieldE initBase "w") "f")) "s") "h")))
      rows =
      .ok ((rows.map (fun r =>
        if isMissingV (getFieldV (getFieldV r "w") "f") then 0
        else if isMissingV (getFieldV
          (getFieldV (firstOrMissing (getFieldV (getFieldV r "w") "f")) "s") "h")
        then 1 else 0)).sum) := by
    refine sumCount_eval (fun r hrm => ?_)
    cases ha : isMissingV (getFieldV (getFieldV r "w") "f") with
    | true =>
      rw [cntWhere_eval_true (by rw [hf r, ha])]
      simp [ha]
    | false =>
      rw [cntWhere_eval_false (by rw [hf r, ha]) (hME_evalC2 r (hne r hrm))]
      simp [ha]
  have hc5 : sumCount (cntArr (missingE (fieldE initBase "w"))
      (fieldE (fieldE initBase "w") "f") "s") rows =
      .ok ((rows.map (fun r =>
        if isMissingV (getFieldV r "w") then 0
        else elemsMissingCount "s" (getFieldV (getFieldV r "w") "f"))).sum) := by
    refine sumCount_eval (fun r _ => ?_)
    cases ha : isMissingV (getFieldV r "w") with
    | true =>
      rw [cntArr_eval_true (by rw [hw r, ha])]
      simp [ha]
    | false =>
      rw [cntArr_eval_false
        (show missingE (fieldE initBase "w") r = .ok false by rw [hw r, ha])
        (show fieldE (fieldE initBase "w") "f" r =
          .ok (getFieldV (getFieldV r "w") "f") from rfl)]
      simp [ha, foldMissing_eq_elems]
  have hk1 : collectKeys (keyWhere initP (missingE (fieldE initBase "w"))) keyOf rows =
      .ok ((rows.filter (fun r => isMissingV (getFieldV r "w"))).map keyOf) := by
    refine collectKeys_eval (fun r _ => ?_)
    rw [keyWhere_eval_false rfl]
    exact hw r
  have hk2 : collectKeys (keyWhere (missingE (fieldE initBase "w"))
      (missingE (fieldE (fieldE initBase "w") "f"))) keyOf rows =
      .ok ((rows.filter (fun r =>
        !isMissingV (getFieldV r "w") &&
        isMissingV (getFieldV (getFieldV r "w") "f"))).map keyOf) := by
    refine collectKeys_eval (fun r _ => ?_)
    cases ha : isMissingV (getFieldV r "w") with
    | true =>
      rw [keyWhere_eval_true (by rw [hw r, ha])]
      simp [ha]
    | false =>
      rw [keyWhere_eval_false (by rw [hw r, ha]), hf r]
      simp [ha]
  have hk3 : collectKeys (keyWhere (missingE (fieldE initBase "w"))
      (arrFieldMissing (missingE (fieldE (fieldE initBase "w") "f"))
        (fieldE (index0E (fieldE (fieldE initBase "w") "f")) "g"))) keyOf rows =
      .ok ((rows.filter (fun r =>
        !isMissingV (getFieldV r "w") &&
        (isMissingV (getFieldV (getFieldV r "w") "f") ||
         isMissingV (getFieldV
           (firstOrMissing (getFieldV (getFieldV r "w") "f")) "g")))).map keyOf) := by
    refine collectKeys_eval (fun r hrm => ?_)
    cases ha : isMissingV (getFieldV r "w") with
    | true =>
      rw [keyWhere_eval_true (by rw [hw r, ha])]
      simp [ha]
    | false =>
      rw [keyWhere_eval_false (by rw [hw r, ha]),
        arrFieldMissing_eval (hf r) (gME_evalC2 r "g" (hne r hrm))]
      simp [ha]
  have hk4 : collectKeys (keyWhere (missingE (fieldE (fieldE initBase "w") "f"))
      (missingE (fieldE (fieldE (index0E (fieldE (fieldE initBase "w") "f")) "s") "h")))
      keyOf rows =
      .ok ((rows.filter (fun r =>
        !isMissingV (getFieldV (getFieldV r "w") "f") &&
        isMissingV (getFieldV
          (getFieldV (firstOrMissing (getFieldV (getFieldV r "w") "f")) "s") "h"))).map
          keyOf) := by
    refine collectKeys_eval (fun r hrm => ?_)
    cases ha : isMissingV (getFieldV (getFieldV r "w") "f") with
    | true =>
      rw [keyWhere_eval_true (by rw [hf r, ha])]
      simp [ha]
    | false =>
      rw [keyWhere_eval_false (by rw [hf r, ha]), hME_evalC2 r (hne r hrm)]
      simp [ha]
  have hk5 : collectKeys (keyWhere (missingE (fieldE initBase "w"))
      (arrFieldMissing (missingE (fieldE (fieldE initBase "w") "f"))
        (fieldE (index0E (fieldE (fieldE initBase "w") "f")) "s"))) keyOf rows =
      .ok ((rows.filter (fun r =>
        !isMissingV (getFieldV r "w") &&
        (isMissingV (getFieldV (getFieldV r "w") "f") ||
         isMissingV (getFieldV
           (firstOrMissing (getFieldV (getFieldV r "w") "f")) "s")))).map keyOf) := by
    refine collectKeys_eval (fun r hrm => ?_)
    cases ha : isMissingV (getFieldV r "w") with
    | true =>
      rw [keyWhere_eval_true (by rw [hw r, ha])]
      simp [ha]
    | false =>
      rw [keyWhere_eval_false (by rw [hw r, ha]),
        arrFieldMissing_eval (hf r) (gME_evalC2 r "s" (hne r hrm))]
      simp [ha]
  show (do
    let counts ← runCounts
      [("w", cntWhere initP (missingE (fieldE initBase "w"))),
       ("w.f", cntWhere (missingE (fieldE initBase "w"))
          (missingE (fieldE (fieldE initBase "w") "f"))),
       ("w.f.g", cntArr (missingE (fieldE initBase "w"))
          (fieldE (fieldE initBase "w") "f") "g"),
       ("w.f.s.h", cntWhere (missingE (fieldE (fieldE initBase "w") "f"))
          (missingE (fieldE (fieldE (index0E (fieldE (fieldE initBase "w") "f")) "s")
            "h"))),
       ("w.f.s", cntArr (missingE (fieldE initBase "w"))
          (fieldE (fieldE initBase "w") "f") "s")] rows
    let keys ← runKeys
      [("w", keyWhere initP (missingE (fieldE initBase "w"))),
       ("w.f", keyWhere (missingE (fieldE initBase "w"))
          (missingE (fieldE (fieldE initBase "w") "f"))),
       ("w.f.g", keyWhere (missingE (fieldE initBase "w"))
          (arrFieldMissing (missingE (fieldE (fieldE initBase "w") "f"))
            (fieldE (index0E (fieldE (fieldE initBase "w") "f")) "g"))),
       ("w.f.s.h", keyWhere (missingE (fieldE (fieldE initBase "w") "f"))
          (missingE (fieldE (fieldE (index0E (fieldE (fieldE initBase "w") "f")) "s")
            "h"))),
       ("w.f.s", keyWhere (missingE (fieldE initBase "w"))
          (arrFieldMissing (missingE (fieldE (fieldE initBase "w") "f"))
            (fieldE (index0E (fieldE (fieldE initBase "w") "f")) "s")))] keyOf rows
    pure (counts, keys) : HRes _) = _
  simp only [runCounts, runKeys, hc1, hc2, hc3, hc4, hc5, hk1, hk2, hk3, hk4, hk5,
    hres_bind_ok]
  rfl

/-- C2 witness: the amended claim applied to a concrete one-row dataset
whose list has a first element with everything present and a second element
with `g` and `s` missing. -/
theorem claim_C2_witness :
    countMissingFieldsWithKeys
      ⟨[("w", .strct [("f", .arrStruct [("g", .scalar), ("s", .strct [("h", .scalar)])])])],
       exKey,
       [Val.struct [("w", Val.struct [("f", Val.array
          [Val.struct [("g", Val.atom "x"), ("s", Val.struct [("h", Val.atom "y")])],
           Val.struct [("g", Val.missing), ("s", Val.missing)]])])]]⟩ =
    .ok (
      [("w", ([Val.struct [("w", Val.struct [("f", Val.array
          [Val.struct [("g", Val.atom "x"), ("s", Val.struct [("h", Val.atom "y")])],
           Val.struct [("g", Val.missing), ("s", Val.missing)]])])]].map (fun r =>
          if isMissingV (getFieldV r "w") then 1 else 0)).sum),
       ("w.f", ([Val.struct [("w", Val.struct [("f", Val.array
          [Val.struct [("g", Val.atom "x"), ("s", Val.struct [("h", Val.atom "y")])],
           Val.struct [("g", Val.missing), ("s", Val.missing)]])])]].map (fun r =>
          if isMissingV (getFieldV r "w") then 0
          else if isMissingV (getFieldV (getFieldV r "w") "f") then 1 else 0)).sum),
       ("w.f.g", ([Val.struct [("w", Val.struct [("f", Val.array
          [Val.struct [("g", Val.atom "x"), ("s", Val.struct [("h", Val.atom "y")])],
           Val.struct [("g", Val.missing), ("s", Val.missing)]])])]].map (fun r =>
          if isMissingV (getFieldV r "w") then 0
          else elemsMissingCount "g" (getFieldV (getFieldV r "w") "f"))).sum),
       ("w.f.s.h", ([Val.struct [("w", Val.struct [("f", Val.array
          [Val.struct [("g", Val.atom "x"), ("s", Val.struct [("h", Val.atom "y")])],
           Val.struct [("g", Val.missing), ("s", Val.missing)]])])]].map (fun r =>
          if isMissingV (getFieldV (getFieldV r "w") "f") then 0
          else if isMissingV (getFieldV
            (getFieldV (firstOrMissing (getFieldV (getFieldV r "w") "f")) "s") "h")
          then 1 else 0)).sum),
       ("w.f.s", ([Val.struct [("w", Val.struct [("f", Val.array
          [Val.struct [("g", Val.atom "x"), ("s", Val.struct [("h", Val.atom "y")])],
           Val.struct [("g", Val.missing), ("s", Val.missing)]])])]].map (fun r =>
          if isMissingV (getFieldV r "w") then 0
          else elemsMissingCount "s" (getFieldV (getFieldV r "w") "f"))).sum)],
      [("w", ([Val.struct [("w", Val.struct [("f", Val.array
          [Val.struct [("g", Val.atom "x"), ("s", Val.struct [("h", Val.atom "y")])],
           Val.struct [("g", Val.missing), ("s", Val.missing)]])])]].filter (fun r =>
          isMissingV (getFieldV r "w"))).map exKey),
       ("w.f", ([Val.struct [("w", Val.struct [("f", Val.array
          [Val.struct [("g", Val.atom "x"), ("s", Val.struct [("h", Val.atom "y")])],
           Val.struct [("g", Val.missing), ("s", Val.missing)]])])]].filter (fun r =>
          !isMissingV (getFieldV r "w") &&
          isMissingV (getFieldV (getFieldV r "w") "f"))).map exKey),
       ("w.f.g", ([Val.struct [("w", Val.struct [("f", Val.array
          [Val.struct [("g", Val.atom "x"), ("s", Val.struct [("h", Val.atom "y")])],
           Val.struct [("g", Val.missing), ("s", Val.missing)]])])]].filter (fun r =>
          !isMissingV (getFieldV r "w") &&
          (isMissingV (getFieldV (getFieldV r "w") "f") ||
           isMissingV (getFieldV
             (firstOrMissing (getFieldV (getFieldV r "w") "f")) "g")))).map exKey),
       ("w.f.s.h", ([Val.struct [("w", Val.struct [("f", Val.array
          [Val.struct [("g", Val.atom "x"), ("s", Val.struct [("h", Val.atom "y")])],
           Val.struct [("g", Val.missing), ("s", Val.missing)]])])]].filter (fun r =>
          !isMissingV (getFieldV (getFieldV r "w") "f") &&
          isMissingV (getFieldV
            (getFieldV (firstOrMissing (getFieldV (getFieldV r "w") "f")) "s") "h"))).map
            exKey),
       ("w.f.s", ([Val.struct [("w", Val.struct [("f", Val.array
          [Val.struct [("g", Val.atom "x"), ("s", Val.struct [("h", Val.atom "y")])],
           Val.struct [("g", Val.missing), ("s", Val.missing)]])])]].filter (fun r =>
          !isMissingV (getFieldV r "w") &&
          (isMissingV (getFieldV (getFieldV r "w") "f") ||
           isMissingV (getFieldV
             (firstOrMissing (getFieldV (getFieldV r "w") "f")) "s")))).map exKey)]) :=
  claim_C2_list_aggregation
    [Val.struct [("w", Val.struct [("f", Val.array
       [Val.struct [("g", Val.atom "x"), ("s", Val.struct [("h", Val.atom "y")])],
        Val.struct [("g", Val.missing), ("s", Val.missing)]])])]]
    exKey
    (by
      intro r hr
      rw [List.mem_singleton] at hr
      subst hr
      rfl)

/-- C6 counterexample: `tNestedEmpty` holds an empty (not null)
List-of-Record value — the inner list `g` of the second element of `f` —
so its rows violate the no-empty-list precondition, yet the traversal
succeeds and produces counts instead of failing with the out-of-bounds
error: the empty list sits off the representative first-element path and is
never indexed. -/
theorem counterexample_C6_nested_empty_list_not_detected :
    noEmptyV (Val.struct [("f", Val.array
      [Val.struct [("g", Val.array [Val.struct [("h", Val.atom "1")]])],
       Val.struct [("g", Val.array [])]])]) = false ∧
    countMissingFieldsWithKeys tNestedEmpty =
      .ok ([("f", 0), ("f.g.h", 0), ("f.g", 0)],
           [("f", []), ("f.g.h", []), ("f.g", [])]) :=
  ⟨rfl, rfl⟩

end HailMissing
